import Mathlib

/-!
ESI ("Extremely Simple Image") codec: a shallow embedding of `esi.go`.

The file models the three exported functions of the package, `DecodeConfig`,
`Decode` and `Encode`, together with `GetColorModel`, and the small part of the
Go standard library they rest on (`bytes.Buffer`, `image.Rectangle`,
`image.RGBA`, `encoding/binary`).

Modelling conventions

* A byte is a `Fin 256`.  Go `int` values are `Int`; lengths are `Nat`.
* A Go call that may end in a run-time panic returns an `Outcome`: either the
  values the function returns (`ret`) or the fault that stops it (`fault`).
* A Go `(value, error)` result is a pair whose second component is an
  `Option GoError` (`none` is Go's `nil` error).
* An `io.Reader` is the list of bytes it delivers followed by the condition
  that ends the stream; an `io.Writer` is the list of bytes written so far plus
  the number of `Write` calls that will still succeed.
-/

namespace ESI

/-! ## Basic types -/

/-- One octet. -/
abbrev Byte := Fin 256

/-- Go conversion `byte(v)` of an unsigned integer: the low eight bits. -/
def byte (v : Nat) : Byte := ⟨v % 256, Nat.mod_lt v (by decide)⟩

/-- Go conversion `uint16(v)` of an `int`: the value modulo `2^16`. -/
def uint16 (v : Int) : Nat := (v % 65536).toNat

/-- Error values that can be returned: the two package-level errors of
`esi.go`, `io.EOF`, and any other fault of an underlying reader or writer. -/
inductive GoError where
  | errImageInvalid
  | errNotESI
  | EOF
  | ioFault (code : Nat)
  deriving DecidableEq, Repr

/-- Run-time panics of the Go runtime that the code can reach. -/
inductive RuntimeFault where
  | indexOutOfRange
  | divideByZero
  deriving DecidableEq, Repr

/-- Result of running a Go function: it returns, or it panics. -/
inductive Outcome (α : Type) where
  | ret (a : α)
  | fault (f : RuntimeFault)
  deriving DecidableEq, Repr

/-- The values of `color.Model` the code can meet: the standard models of
package `image/color`, and any further model identified by a tag. -/
inductive ColorModel where
  | RGBAModel
  | RGBA64Model
  | NRGBAModel
  | NRGBA64Model
  | AlphaModel
  | Alpha16Model
  | GrayModel
  | Gray16Model
  | otherModel (tag : Nat)
  deriving DecidableEq, Repr

/-- Type `image.Point`. -/
structure Point where
  X : Int
  Y : Int
  deriving DecidableEq, Repr

/-- Type `image.Rectangle`. -/
structure Rectangle where
  Min : Point
  Max : Point
  deriving DecidableEq, Repr

/-- Type `image.Config`; the zero value has a `nil` colour model. -/
structure Config where
  ColorModel : Option ColorModel
  Width : Int
  Height : Int
  deriving DecidableEq, Repr

/-- The zero value of `image.Config`. -/
def Config.zero : Config := { ColorModel := none, Width := 0, Height := 0 }

/-- Type `color.RGBA`: four 8-bit channels. -/
structure RGBA8 where
  R : Byte
  G : Byte
  B : Byte
  A : Byte
  deriving DecidableEq, Repr

/-- What `Color.RGBA()` returns: four `uint32` values (by the contract of
`color.Color` each is at most `0xffff`). -/
structure RGBA32 where
  r : Nat
  g : Nat
  b : Nat
  a : Nat
  deriving DecidableEq, Repr

/-- An `image.Image` as `Encode` uses it: its colour model, its bounds, and
`At(x, y).RGBA()` for every point. -/
structure Image where
  ColorModel : ColorModel
  Bounds : Rectangle
  At : Int → Int → RGBA32

/-! ## `io.Reader`, `io.Writer`, `bytes.Buffer` -/

/-- An `io.Reader`: it delivers `data`, then reports `io.EOF` (`stop = none`)
or another read fault (`stop = some e`). -/
structure Reader where
  data : List Byte
  stop : Option GoError
  deriving DecidableEq, Repr

/-- Go `bytes.NewBuffer(b)` (and `bytes.NewReader(b)`) used as a reader. -/
def Reader.ofBytes (b : List Byte) : Reader := { data := b, stop := none }

/-- Go `buf.ReadFrom(r)` / `io.Copy(&buf, r)` into an empty buffer: the buffer
holds every byte delivered before the stream ended; the second component is the
error the call returns (`io.EOF` is not reported as an error). -/
def readAll (r : Reader) : List Byte × Option GoError := (r.data, r.stop)

/-- Go `buf.Next(n)`: the next `n` unread bytes (all of them when fewer than `n`
remain) and the rest of the buffer. -/
def next (n : Nat) (buf : List Byte) : List Byte × List Byte := (buf.take n, buf.drop n)

/-- Go `buf.ReadByte()`: the next byte, or `0` with `io.EOF` on an empty buffer. -/
def readByte (buf : List Byte) : (Byte × Option GoError) × List Byte :=
  match buf with
  | [] => ((0, some GoError.EOF), [])
  | b :: rest => ((b, none), rest)

/-- An `io.Writer`: the bytes written so far, and how many further `Write`
calls succeed (`none`: every call succeeds). -/
structure Writer where
  written : List Byte
  budget : Option Nat
  deriving DecidableEq, Repr

/-- A writer with nothing written that never fails. -/
def Writer.reliable : Writer := { written := [], budget := none }

/-- Go `w.Write(p)`: appends `p`, or fails without writing once the budget is
used up. -/
def Writer.Write (w : Writer) (p : List Byte) : Writer × Option GoError :=
  match w.budget with
  | none => ({ w with written := w.written ++ p }, none)
  | some 0 => (w, some (GoError.ioFault 0))
  | some (k + 1) => ({ written := w.written ++ p, budget := some k }, none)

/-- The ASCII bytes of `"esi1"`. -/
def magicESI : List Byte := [0x65, 0x73, 0x69, 0x31]

/-! ## `GetColorModel` -/

/-- Function `GetColorModel(b)`: it computes `cc` and `depth` and then returns
`color.RGBAModel` unconditionally (the `return` of line 208). -/
def GetColorModel (b : Byte) : ColorModel :=
  let _cc : Bool := ((b.val &&& (1 <<< 7)) >>> 7) == 1
  let _depth : Nat := (b.val &&& (255 - 128)) >>> 2
  ColorModel.RGBAModel

/-- The statements of `GetColorModel` that follow its unconditional `return`
(lines 210-224); no call ever reaches them. -/
def GetColorModel_unreachable (b : Byte) : ColorModel :=
  let cc : Bool := ((b.val &&& (1 <<< 7)) >>> 7) == 1
  let depth : Nat := (b.val &&& (255 - 128)) >>> 2
  if cc then
    if depth = 16 then ColorModel.RGBA64Model else ColorModel.RGBAModel
  else
    if depth = 16 then ColorModel.Gray16Model else ColorModel.GrayModel

/-! ## `DecodeConfig` -/

/-- Go `binary.BigEndian.Uint16` of two bytes. -/
def bigEndianUint16 (hi lo : Byte) : Nat := 256 * hi.val + lo.val

/-- Function `DecodeConfig(r)`.  The buffer is filled from `r` (the error of
`ReadFrom` is dropped), the magic is compared, then `header := buf.Next(4)` is
indexed: `header[2]` is out of range when fewer than three bytes follow the
magic (the reslice `header[0:2]` before it stays within the buffer's capacity,
so the index is the first fault), and `size / 3 / cfg.Width` divides by zero
when the width field is zero.  The check `if err != nil` of lines 110-112
stands before the read and tests the named result `err`, which is still `nil`
there, so it never returns. -/
def DecodeConfig (r : Reader) : Outcome (Config × Option GoError) :=
  let buf := (readAll r).1
  let (magic, buf) := next 4 buf
  if magic ≠ magicESI then
    Outcome.ret (Config.zero, some GoError.errNotESI)
  else
    let (header, buf) := next 4 buf
    match header with
    | h0 :: h1 :: h2 :: _ =>
      let w := bigEndianUint16 h0 h1
      let width : Int := (w : Int)
      let cm := GetColorModel h2
      let size : Int := (buf.length : Int)
      if width = 0 then
        Outcome.fault RuntimeFault.divideByZero
      else
        Outcome.ret
          ({ ColorModel := some cm, Width := width, Height := Int.tdiv (Int.tdiv size 3) width },
            none)
    | _ => Outcome.fault RuntimeFault.indexOutOfRange

/-! ## `image.Rectangle` and `image.RGBA` -/

/-- Go `image.Rect(x0, y0, x1, y1)`: the rectangle with the coordinates put in
order. -/
def Rect (x0 y0 x1 y1 : Int) : Rectangle :=
  let xs : Int × Int := if x0 > x1 then (x1, x0) else (x0, x1)
  let ys : Int × Int := if y0 > y1 then (y1, y0) else (y0, y1)
  { Min := { X := xs.1, Y := ys.1 }, Max := { X := xs.2, Y := ys.2 } }

/-- Go `r.Dx()`. -/
def Rectangle.Dx (r : Rectangle) : Int := r.Max.X - r.Min.X

/-- Go `r.Dy()`. -/
def Rectangle.Dy (r : Rectangle) : Int := r.Max.Y - r.Min.Y

/-- Go `p.In(r)`. -/
def Point.In (p : Point) (r : Rectangle) : Bool :=
  decide (r.Min.X ≤ p.X) && decide (p.X < r.Max.X) &&
    decide (r.Min.Y ≤ p.Y) && decide (p.Y < r.Max.Y)

/-- Type `image.RGBA`: the pixel bytes, the stride and the bounds. -/
structure RGBAImage where
  Pix : List Byte
  Stride : Int
  Rect : Rectangle
  deriving DecidableEq, Repr

/-- Go `image.NewRGBA(r)`: a zero-filled image of `4 * Dx * Dy` bytes. -/
def NewRGBA (r : Rectangle) : RGBAImage :=
  { Pix := List.replicate (4 * r.Dx * r.Dy).toNat 0, Stride := 4 * r.Dx, Rect := r }

/-- Go `p.PixOffset(x, y)`. -/
def RGBAImage.PixOffset (p : RGBAImage) (x y : Int) : Int :=
  (y - p.Rect.Min.Y) * p.Stride + (x - p.Rect.Min.X) * 4

/-- Go `p.SetRGBA(x, y, c)`: nothing happens outside the bounds; inside, the four
bytes at the pixel's offset are overwritten. -/
def RGBAImage.SetRGBA (p : RGBAImage) (x y : Int) (c : RGBA8) : RGBAImage :=
  if Point.In { X := x, Y := y } p.Rect then
    let i := (p.PixOffset x y).toNat
    { p with Pix := (((p.Pix.set i c.R).set (i + 1) c.G).set (i + 2) c.B).set (i + 3) c.A }
  else p

/-- Go `p.RGBAAt(x, y)`: the zero colour outside the bounds; inside, the four
bytes at the pixel's offset. -/
def RGBAImage.RGBAAt (p : RGBAImage) (x y : Int) : RGBA8 :=
  if Point.In { X := x, Y := y } p.Rect then
    let i := (p.PixOffset x y).toNat
    { R := p.Pix.getD i 0, G := p.Pix.getD (i + 1) 0,
      B := p.Pix.getD (i + 2) 0, A := p.Pix.getD (i + 3) 0 }
  else { R := 0, G := 0, B := 0, A := 0 }

/-- The values a loop `for v := lo; v < hi; v++` gives to `v`. -/
def loopRange (lo hi : Int) : List Int :=
  (List.range (hi - lo).toNat).map (fun (k : Nat) => lo + (k : Int))

/-! ## `Decode` -/

/-- The check of lines 84-89: the first of the errors that is neither `nil` nor
`io.EOF`. -/
def firstFatal : List (Option GoError) → Option GoError
  | [] => none
  | none :: rest => firstFatal rest
  | some e :: rest => if e ≠ GoError.EOF then some e else firstFatal rest

/-- The inner loop of `Decode` (lines 78-101) for the row `y`, over the
remaining column values: three `ReadByte` calls and one `SetRGBA` per pixel. -/
def decodeRow (y : Int) : List Int → List Byte → RGBAImage →
    (List Byte × RGBAImage) × Option GoError
  | [], buf, img => ((buf, img), none)
  | x :: xs, buf, img =>
    let r := readByte buf
    let g := readByte r.2
    let b := readByte g.2
    match firstFatal [r.1.2, g.1.2, b.1.2] with
    | some err => ((b.2, img), some err)
    | none =>
      decodeRow y xs b.2 (img.SetRGBA x y { R := r.1.1, G := g.1.1, B := b.1.1, A := 255 })

/-- The outer loop of `Decode` (lines 77-102) over the remaining row values. -/
def decodeRows (cols : List Int) : List Int → List Byte → RGBAImage →
    (List Byte × RGBAImage) × Option GoError
  | [], buf, img => ((buf, img), none)
  | y :: ys, buf, img =>
    match decodeRow y cols buf img with
    | (st, some err) => (st, some err)
    | (st, none) => decodeRows cols ys st.1 st.2

/-- Function `Decode(r)`: the image (Go's `nil` is `none`) and the error. -/
def Decode (r : Reader) : Outcome (Option RGBAImage × Option GoError) :=
  let buf := (readAll r).1
  let cfgBuf := Reader.ofBytes buf
  match DecodeConfig cfgBuf with
  | Outcome.fault f => Outcome.fault f
  | Outcome.ret (_, some err) => Outcome.ret (none, some err)
  | Outcome.ret (cfg, none) =>
    let bounds := Rect 0 0 cfg.Width cfg.Height
    let img := NewRGBA bounds
    let buf := (next 8 buf).2
    match decodeRows (loopRange bounds.Min.X bounds.Max.X)
        (loopRange bounds.Min.Y bounds.Max.Y) buf img with
    | (_, some err) => Outcome.ret (none, some err)
    | (st, none) => Outcome.ret (some st.2, none)

/-! ## `Encode` -/

/-- The config byte `Encode` computes from the colour model (lines 154-182). -/
def configByte (cm : ColorModel) : Byte :=
  let cc : Bool :=
    match cm with
    | ColorModel.GrayModel => false
    | ColorModel.Gray16Model => false
    | _ => true
  let cw : Nat :=
    match cm with
    | ColorModel.RGBA64Model => 16
    | ColorModel.Gray16Model => 16
    | _ => 8
  let b0 : Nat := 0
  let b1 : Nat := if cc then b0 ||| 128 else b0
  let b2 : Nat := if cw = 16 then b1 ||| 64 else b1 ||| 32
  byte b2

/-- The two bytes `binary.Write(w, binary.BigEndian, v)` writes for a
`uint16`. -/
def bigEndianBytes16 (v : Nat) : List Byte := [byte (v / 256), byte v]

/-- The inner loop of `Encode` (lines 190-196) for the row `y`: one `Write` of
three bytes per pixel, stopping at the first write error. -/
def encodeRow (img : Image) (y : Int) : List Int → Writer → Writer × Option GoError
  | [], w => (w, none)
  | x :: xs, w =>
    let c := img.At x y
    match w.Write [byte (c.r / 257), byte (c.g / 257), byte (c.b / 257)] with
    | (w1, some err) => (w1, some err)
    | (w1, none) => encodeRow img y xs w1

/-- The outer loop of `Encode` (lines 189-197). -/
def encodeRows (img : Image) (cols : List Int) : List Int → Writer → Writer × Option GoError
  | [], w => (w, none)
  | y :: ys, w =>
    match encodeRow img y cols w with
    | (w1, some err) => (w1, some err)
    | (w1, none) => encodeRows img cols ys w1

/-- Function `Encode(w, img)`: the writer after the call, and the error returned. -/
def Encode (w : Writer) (img : Image) : Writer × Option GoError :=
  let bounds := img.Bounds
  match w.Write magicESI with
  | (w1, some err) => (w1, some err)
  | (w1, none) =>
    match w1.Write (bigEndianBytes16 (uint16 bounds.Max.X)) with
    | (w2, some err) => (w2, some err)
    | (w2, none) =>
      match w2.Write [configByte img.ColorModel, 0] with
      | (w3, some err) => (w3, some err)
      | (w3, none) =>
        encodeRows img (loopRange 0 bounds.Max.X) (loopRange 0 bounds.Max.Y) w3

/-- A constant-colour image, used for concrete instances. -/
def Image.uniform (cm : ESI.ColorModel) (b : Rectangle) (c : RGBA32) : Image :=
  { ColorModel := cm, Bounds := b, At := fun _ _ => c }

/-! ## Auxiliary definitions for the proofs about the decoder's loops -/

/-- The four bytes the decoder stores for pixel number `k` (row-major) of a
body: three bytes of the body, a missing byte counting as zero, then 255. -/
def pixelBytes (body : List Byte) (k : Nat) : List Byte :=
  [body.getD (3 * k) 0, body.getD (3 * k + 1) 0, body.getD (3 * k + 2) 0, 255]

/-- The stored bytes of the first `k` pixels. -/
def pixelsUpTo (body : List Byte) : Nat → List Byte
  | 0 => []
  | k + 1 => pixelsUpTo body k ++ pixelBytes body k

/-- The decoder's image after `k` pixels have been stored: the bytes of those
pixels followed by the still untouched zero bytes. -/
def imageAfter (body : List Byte) (W H k : Nat) : RGBAImage :=
  { Pix := pixelsUpTo body k ++ List.replicate (4 * (W * H - k)) 0,
    Stride := 4 * (W : Int),
    Rect := { Min := { X := 0, Y := 0 }, Max := { X := (W : Int), Y := (H : Int) } } }

/-! ## Auxiliary definitions for the proofs about the encoder's loops -/

/-- The three bytes `Encode` writes for one colour value (line 192). -/
def pixelTriple (c : RGBA32) : List Byte :=
  [byte (c.r / 257), byte (c.g / 257), byte (c.b / 257)]

/-- The bytes of row `y` over the given columns, in order. -/
def rowBytes (img : Image) (y : Int) : List Int → List Byte
  | [] => []
  | x :: xs => pixelTriple (img.At x y) ++ rowBytes img y xs

/-- The bytes of the given rows, each over the given columns, in order. -/
def bodyBytes (img : Image) (cols : List Int) : List Int → List Byte
  | [] => []
  | y :: ys => rowBytes img y cols ++ bodyBytes img cols ys

/-- The eight header bytes for an image. -/
def headerBytes (img : Image) : List Byte :=
  magicESI ++ bigEndianBytes16 (uint16 img.Bounds.Max.X) ++ [configByte img.ColorModel, 0]

/-! ## The specification's pixel size -/

/-- The specification's `bytesPerPixel`, written from its words: the channel
count (1 for grayscale, 3 for colour) times the bytes per channel (1 for 8-bit,
2 for 16-bit models). -/
def bytesPerPixelSpec (m : ColorModel) : Nat :=
  let channels : Nat :=
    match m with
    | ColorModel.GrayModel => 1
    | ColorModel.Gray16Model => 1
    | _ => 3
  let bytesPerChannel : Nat :=
    match m with
    | ColorModel.RGBA64Model => 2
    | ColorModel.Gray16Model => 2
    | _ => 1
  channels * bytesPerChannel

/-! ## A concrete image with a lower corner -/

/-- An image of one colour inside its bounds whose `At` gives the zero colour
for points outside them, as the image types of package `image` do. -/
def Image.solid (cm : ESI.ColorModel) (b : Rectangle) (c : RGBA32) : Image :=
  { ColorModel := cm, Bounds := b,
    At := fun x y => if Point.In { X := x, Y := y } b then c else { r := 0, g := 0, b := 0, a := 0 } }

end ESI

namespace ESI

/-! ## Shape of a well-formed header -/

/-- An input of at least eight bytes that starts with the magic is the magic,
four header bytes, and a body. -/
theorem input_shape (input : List Byte) (h8 : 8 ≤ input.length)
    (hm : input.take 4 = magicESI) :
    input = magicESI ++ (input.getD 4 0 :: input.getD 5 0 :: input.getD 6 0 ::
      input.getD 7 0 :: input.drop 8) := by
  rcases input with _ | ⟨a0, _ | ⟨a1, _ | ⟨a2, _ | ⟨a3, _ | ⟨a4, _ | ⟨a5, _ | ⟨a6, _ | ⟨a7, t⟩⟩⟩⟩⟩⟩⟩⟩ <;>
    simp at h8
  simp only [List.take_succ_cons, List.take_zero] at hm
  rw [← hm]
  simp

/-- Go's truncated division agrees with division of naturals on the
non-negative operands `DecodeConfig` meets. -/
theorem tdiv_size (n w : Nat) :
    Int.tdiv (Int.tdiv (n : Int) 3) (w : Int) = ((n / 3 / w : Nat) : Int) := rfl

/-- Result of `DecodeConfig` on magic, four header bytes and a body. -/
theorem DecodeConfig_shape (b4 b5 b6 b7 : Byte) (body : List Byte) (stop : Option GoError) :
    DecodeConfig { data := magicESI ++ (b4 :: b5 :: b6 :: b7 :: body), stop := stop } =
      if bigEndianUint16 b4 b5 = 0 then Outcome.fault RuntimeFault.divideByZero
      else Outcome.ret
        ({ ColorModel := some ColorModel.RGBAModel, Width := (bigEndianUint16 b4 b5 : Nat),
           Height := ((body.length / 3 / bigEndianUint16 b4 b5 : Nat) : Int) }, none) := by
  simp only [DecodeConfig, readAll, next, magicESI, GetColorModel]
  simp only [List.cons_append, List.nil_append, List.take_succ_cons, List.take_zero,
    List.drop_succ_cons, List.drop_zero, ne_eq, not_true_eq_false, if_false]
  by_cases hw : bigEndianUint16 b4 b5 = 0
  · simp [hw]
  · have hw2 : ¬ ((bigEndianUint16 b4 b5 : Nat) : Int) = 0 := by exact_mod_cast hw
    simp only [hw, hw2, if_false]
    rfl

/-! ## The decoder's loops -/

theorem readByte_val (l : List Byte) : (readByte l).1.1 = l.getD 0 0 := by
  cases l <;> rfl

theorem readByte_rest (l : List Byte) : (readByte l).2 = l.drop 1 := by
  cases l <;> rfl

/-- Reading from a `bytes.Buffer` only ever reports `io.EOF`, which the check
of lines 84-89 lets pass. -/
theorem firstFatal_readByte (a b c : List Byte) :
    firstFatal [(readByte a).1.2, (readByte b).1.2, (readByte c).1.2] = none := by
  cases a <;> cases b <;> cases c <;> simp [readByte, firstFatal]

theorem length_pixelsUpTo (body : List Byte) (k : Nat) :
    (pixelsUpTo body k).length = 4 * k := by
  induction k with
  | zero => rfl
  | succ k ih => simp [pixelsUpTo, pixelBytes, ih]; omega

/-- Overwriting four consecutive cells that follow a prefix. -/
theorem set4_append (A rest : List Byte) (z0 z1 z2 z3 r g b a : Byte) :
    ((((A ++ z0 :: z1 :: z2 :: z3 :: rest).set A.length r).set (A.length + 1) g).set
      (A.length + 2) b).set (A.length + 3) a = A ++ r :: g :: b :: a :: rest := by
  induction A with
  | nil => simp
  | cons h t ih => simp [ih]

theorem getD_drop_zero (body : List Byte) (n j : Nat) :
    (body.drop n).getD j 0 = body.getD (n + j) 0 := by
  simp [List.getD_eq_getElem?_getD, List.getElem?_drop]

/-- A pixel inside a `W` by `H` grid has a row-major number below `W * H`. -/
theorem index_lt (W H x y : Nat) (hx : x < W) (hy : y < H) : y * W + x < W * H := by
  have h1 : (y + 1) * W ≤ H * W := Nat.mul_le_mul_right W hy
  have h2 : (y + 1) * W = y * W + W := by ring
  have h3 : H * W = W * H := Nat.mul_comm H W
  omega

theorem pixOffset_imageAfter (body : List Byte) (W H k x y : Nat) :
    ((imageAfter body W H k).PixOffset (x : Int) (y : Int)).toNat = 4 * (y * W + x) := by
  have h : (imageAfter body W H k).PixOffset (x : Int) (y : Int)
      = ((4 * (y * W + x) : Nat) : Int) := by
    simp only [RGBAImage.PixOffset, imageAfter]
    push_cast
    ring
  rw [h, Int.toNat_natCast]

theorem in_imageAfter (body : List Byte) (W H k x y : Nat) (hx : x < W) (hy : y < H) :
    Point.In { X := (x : Int), Y := (y : Int) } (imageAfter body W H k).Rect = true := by
  have hx2 : (x : Int) < (W : Int) := by exact_mod_cast hx
  have hy2 : (y : Int) < (H : Int) := by exact_mod_cast hy
  simp [Point.In, imageAfter, hx2, hy2]

/-- Storing pixel `(x, y)` turns the image after `y * W + x` pixels into the
image after one more. -/
theorem SetRGBA_imageAfter (body : List Byte) (W H x y : Nat) (hx : x < W) (hy : y < H) :
    (imageAfter body W H (y * W + x)).SetRGBA (x : Int) (y : Int)
        { R := body.getD (3 * (y * W + x)) 0, G := body.getD (3 * (y * W + x) + 1) 0,
          B := body.getD (3 * (y * W + x) + 2) 0, A := 255 }
      = imageAfter body W H (y * W + x + 1) := by
  have hk := index_lt W H x y hx hy
  unfold RGBAImage.SetRGBA
  rw [if_pos (in_imageAfter body W H _ x y hx hy)]
  simp only [pixOffset_imageAfter]
  have hrep : List.replicate (4 * (W * H - (y * W + x))) (0 : Byte)
      = 0 :: 0 :: 0 :: 0 :: List.replicate (4 * (W * H - (y * W + x + 1))) 0 := by
    have : 4 * (W * H - (y * W + x)) = 4 * (W * H - (y * W + x + 1)) + 4 := by omega
    rw [this]
    rfl
  have hlen := length_pixelsUpTo body (y * W + x)
  simp only [imageAfter, hrep]
  rw [← hlen, set4_append]
  simp [pixelsUpTo, pixelBytes]

/-- One turn of the inner loop: three bytes are consumed (missing ones read as
zero) and never cause an error. -/
theorem decodeRow_cons (y x : Int) (xs : List Int) (buf : List Byte) (img : RGBAImage) :
    decodeRow y (x :: xs) buf img
      = decodeRow y xs (buf.drop 3)
          (img.SetRGBA x y { R := buf.getD 0 0, G := buf.getD 1 0, B := buf.getD 2 0, A := 255 }) := by
  rcases buf with _ | ⟨a, _ | ⟨b, _ | ⟨c, t⟩⟩⟩ <;> simp [decodeRow, readByte, firstFatal]

theorem loopRange_zero (n : Nat) :
    loopRange 0 (n : Int) = (List.range' 0 n).map (fun k : Nat => (k : Int)) := by
  unfold loopRange
  rw [Int.sub_zero, Int.toNat_natCast, List.range_eq_range']
  apply List.map_congr_left
  intro k _
  exact Int.zero_add _

/-- The inner loop over the columns `x0 .. W-1` of row `y`. -/
theorem decodeRow_imageAfter (body : List Byte) (W H y : Nat) (hy : y < H) :
    ∀ (j x0 : Nat), x0 + j = W →
      decodeRow (y : Int) ((List.range' x0 j).map (fun k : Nat => (k : Int)))
          (body.drop (3 * (y * W + x0))) (imageAfter body W H (y * W + x0))
        = ((body.drop (3 * (y * W + W)), imageAfter body W H (y * W + W)), none) := by
  intro j
  induction j with
  | zero =>
    intro x0 h
    have : x0 = W := by omega
    subst this
    simp [decodeRow]
  | succ j ih =>
    intro x0 h
    have hx : x0 < W := by omega
    rw [List.range'_succ, List.map_cons, decodeRow_cons]
    simp only [getD_drop_zero, Nat.add_zero]
    rw [SetRGBA_imageAfter body W H x0 y hx hy]
    have hd : List.drop 3 (List.drop (3 * (y * W + x0)) body)
        = List.drop (3 * (y * W + (x0 + 1))) body := by
      rw [List.drop_drop]
      exact congrArg (fun n => List.drop n body) (by omega)
    rw [hd]
    exact ih (x0 + 1) (by omega)

/-- The outer loop over the rows `y0 .. H-1`. -/
theorem decodeRows_imageAfter (body : List Byte) (W H : Nat) :
    ∀ (j y0 : Nat), y0 + j = H →
      decodeRows ((List.range' 0 W).map (fun k : Nat => (k : Int)))
          ((List.range' y0 j).map (fun k : Nat => (k : Int)))
          (body.drop (3 * (y0 * W))) (imageAfter body W H (y0 * W))
        = ((body.drop (3 * (H * W)), imageAfter body W H (H * W)), none) := by
  intro j
  induction j with
  | zero =>
    intro y0 h
    have : y0 = H := by omega
    subst this
    simp [decodeRows]
  | succ j ih =>
    intro y0 h
    have hy : y0 < H := by omega
    have hrow := decodeRow_imageAfter body W H y0 hy W 0 (by omega)
    simp only [Nat.add_zero] at hrow
    rw [List.range'_succ, List.map_cons]
    simp only [decodeRows, hrow]
    have e : y0 * W + W = (y0 + 1) * W := by ring
    rw [e]
    exact ih (y0 + 1) (by omega)

theorem Rect_natCast (W H : Nat) :
    Rect 0 0 (W : Int) (H : Int)
      = { Min := { X := 0, Y := 0 }, Max := { X := (W : Int), Y := (H : Int) } } := by
  have hW : ¬ (0 : Int) > (W : Int) := by omega
  have hH : ¬ (0 : Int) > (H : Int) := by omega
  simp [Rect, hW, hH]

/-- The freshly allocated image is the image after zero pixels. -/
theorem NewRGBA_eq (body : List Byte) (W H : Nat) :
    NewRGBA (Rect 0 0 (W : Int) (H : Int)) = imageAfter body W H 0 := by
  rw [Rect_natCast]
  have h : (4 * (W : Int) * (H : Int)).toNat = 4 * (W * H) := by
    have : 4 * (W : Int) * (H : Int) = ((4 * (W * H) : Nat) : Int) := by
      push_cast
      ring
    rw [this, Int.toNat_natCast]
  simp only [NewRGBA, Rectangle.Dx, Rectangle.Dy, imageAfter, pixelsUpTo, List.nil_append,
    Nat.sub_zero, Int.sub_zero, h]

/-- Both loops of `Decode`, run on a fresh `W` by `H` image. -/
theorem decodeRows_fresh (body : List Byte) (W H : Nat) :
    decodeRows (loopRange 0 (W : Int)) (loopRange 0 (H : Int)) body
        (NewRGBA (Rect 0 0 (W : Int) (H : Int)))
      = ((body.drop (3 * (H * W)), imageAfter body W H (H * W)), none) := by
  have h := decodeRows_imageAfter body W H H 0 (by omega)
  simp only [Nat.zero_mul, Nat.mul_zero, List.drop_zero] at h
  rw [loopRange_zero, loopRange_zero, NewRGBA_eq body]
  exact h

/-- Result of `Decode` on magic, four header bytes and a body: a division fault when the
width field is zero, otherwise the fully stored image, with no error. -/
theorem Decode_shape (b4 b5 b6 b7 : Byte) (body : List Byte) (stop : Option GoError) :
    Decode { data := magicESI ++ (b4 :: b5 :: b6 :: b7 :: body), stop := stop } =
      if bigEndianUint16 b4 b5 = 0 then Outcome.fault RuntimeFault.divideByZero
      else Outcome.ret
        (some (imageAfter body (bigEndianUint16 b4 b5) (body.length / 3 / bigEndianUint16 b4 b5)
          (body.length / 3 / bigEndianUint16 b4 b5 * bigEndianUint16 b4 b5)), none) := by
  unfold Decode
  simp only [readAll, Reader.ofBytes]
  rw [DecodeConfig_shape]
  by_cases hw : bigEndianUint16 b4 b5 = 0
  · simp [hw]
  · simp only [hw, if_false]
    have hb : (next 8 (magicESI ++ (b4 :: b5 :: b6 :: b7 :: body))).2 = body := by
      simp [next, magicESI]
    simp only [hb, Rect_natCast]
    have h := decodeRows_fresh body (bigEndianUint16 b4 b5)
      (body.length / 3 / bigEndianUint16 b4 b5)
    rw [Rect_natCast] at h
    simp only [h]

/-- Byte `j` of stored pixel `k`, read out of the flat pixel buffer. -/
theorem getD_pixelsUpTo (body : List Byte) :
    ∀ (n : Nat) (rest : List Byte) (k j : Nat), k < n → j < 4 →
      (pixelsUpTo body n ++ rest).getD (4 * k + j) 0 = (pixelBytes body k).getD j 0 := by
  intro n
  induction n with
  | zero => intro rest k j hk; omega
  | succ n ih =>
    intro rest k j hk hj
    rw [pixelsUpTo, List.append_assoc]
    by_cases hkn : k < n
    · exact ih _ k j hkn hj
    · have hk2 : k = n := by omega
      subst hk2
      rw [List.getD_append_right _ _ _ _ (by rw [length_pixelsUpTo]; omega), length_pixelsUpTo]
      have hidx : 4 * k + j - 4 * k = j := by omega
      rw [hidx]
      have hj4 : j = 0 ∨ j = 1 ∨ j = 2 ∨ j = 3 := by omega
      rcases hj4 with h | h | h | h <;> subst h <;> simp [pixelBytes]

/-- Reading pixel `(x, y)` of the fully stored image. -/
theorem RGBAAt_imageAfter (body : List Byte) (W H x y : Nat) (hx : x < W) (hy : y < H) :
    (imageAfter body W H (H * W)).RGBAAt (x : Int) (y : Int)
      = { R := body.getD (3 * (y * W + x)) 0, G := body.getD (3 * (y * W + x) + 1) 0,
          B := body.getD (3 * (y * W + x) + 2) 0, A := 255 } := by
  have hk : y * W + x < H * W := by
    have := index_lt W H x y hx hy
    rw [Nat.mul_comm H W]
    exact this
  unfold RGBAImage.RGBAAt
  rw [if_pos (in_imageAfter body W H _ x y hx hy)]
  simp only [pixOffset_imageAfter]
  have h0 := getD_pixelsUpTo body (H * W) (List.replicate (4 * (W * H - H * W)) 0)
    (y * W + x) 0 hk (by omega)
  have h1 := getD_pixelsUpTo body (H * W) (List.replicate (4 * (W * H - H * W)) 0)
    (y * W + x) 1 hk (by omega)
  have h2 := getD_pixelsUpTo body (H * W) (List.replicate (4 * (W * H - H * W)) 0)
    (y * W + x) 2 hk (by omega)
  have h3 := getD_pixelsUpTo body (H * W) (List.replicate (4 * (W * H - H * W)) 0)
    (y * W + x) 3 hk (by omega)
  simp only [Nat.add_zero] at h0
  simp only [imageAfter, h0, h1, h2, h3]
  simp [pixelBytes]

/-- The body holds every byte the decoder reads for a pixel of the inferred
grid: with `H = n / 3 / W`, pixel `(x, y)` ends before byte `n`. -/
theorem index_in_body (n W x y : Nat) (hx : x < W) (hy : y < n / 3 / W) :
    3 * (y * W + x) + 2 < n := by
  have h1 := index_lt W (n / 3 / W) x y hx hy
  have h2 : W * (n / 3 / W) ≤ n / 3 := Nat.mul_div_le (n / 3) W
  have h3 : 3 * (n / 3) ≤ n := Nat.mul_div_le n 3
  omega

/-! ## The encoder's loops on a writer that never fails -/

theorem encodeRow_reliable (img : Image) (y : Int) :
    ∀ (xs : List Int) (out : List Byte),
      encodeRow img y xs { written := out, budget := none }
        = ({ written := out ++ rowBytes img y xs, budget := none }, none) := by
  intro xs
  induction xs with
  | nil => intro out; simp [encodeRow, rowBytes]
  | cons x xs ih =>
    intro out
    simp only [encodeRow, Writer.Write, rowBytes, pixelTriple]
    rw [ih]
    simp

theorem encodeRows_reliable (img : Image) (cols : List Int) :
    ∀ (ys : List Int) (out : List Byte),
      encodeRows img cols ys { written := out, budget := none }
        = ({ written := out ++ bodyBytes img cols ys, budget := none }, none) := by
  intro ys
  induction ys with
  | nil => intro out; simp [encodeRows, bodyBytes]
  | cons y ys ih =>
    intro out
    simp only [encodeRows, encodeRow_reliable, bodyBytes]
    rw [ih]
    simp

/-- On a writer that never fails `Encode` returns no error and has written the
header followed by the pixel triples in row-major order. -/
theorem Encode_reliable (img : Image) (out : List Byte) :
    Encode { written := out, budget := none } img
      = ({ written := out ++ headerBytes img ++
            bodyBytes img (loopRange 0 img.Bounds.Max.X) (loopRange 0 img.Bounds.Max.Y),
           budget := none }, none) := by
  simp only [Encode, Writer.Write, encodeRows_reliable, headerBytes]
  simp

theorem length_rowBytes (img : Image) (y : Int) (xs : List Int) :
    (rowBytes img y xs).length = 3 * xs.length := by
  induction xs with
  | nil => rfl
  | cons x xs ih => simp [rowBytes, pixelTriple, ih]; omega

theorem length_bodyBytes (img : Image) (cols ys : List Int) :
    (bodyBytes img cols ys).length = 3 * cols.length * ys.length := by
  induction ys with
  | nil => rfl
  | cons y ys ih => simp [bodyBytes, length_rowBytes, ih]; ring

theorem length_loopRange (lo hi : Int) : (loopRange lo hi).length = (hi - lo).toNat := by
  simp [loopRange]

theorem length_headerBytes (img : Image) : (headerBytes img).length = 8 := rfl

/-- Byte `c` of the triple of column `x0 + i` inside the bytes of a row. -/
theorem getD_rowBytes (img : Image) (y : Int) :
    ∀ (j x0 i c : Nat) (rest : List Byte), i < j → c < 3 →
      (rowBytes img y ((List.range' x0 j).map (fun k : Nat => (k : Int))) ++ rest).getD
          (3 * i + c) 0
        = (pixelTriple (img.At ((x0 + i : Nat) : Int) y)).getD c 0 := by
  intro j
  induction j with
  | zero => intro x0 i c rest hi; omega
  | succ j ih =>
    intro x0 i c rest hi hc
    rw [List.range'_succ, List.map_cons, rowBytes, List.append_assoc]
    cases i with
    | zero =>
      rw [List.getD_append _ _ _ _ (by simp [pixelTriple]; omega)]
      simp
    | succ i =>
      rw [List.getD_append_right _ _ _ _ (by simp [pixelTriple]; omega)]
      have hidx : 3 * (i + 1) + c - (pixelTriple (img.At (x0 : Int) y)).length = 3 * i + c := by
        simp [pixelTriple]; omega
      rw [hidx, ih (x0 + 1) i c rest (by omega) hc]
      have hx : x0 + 1 + i = x0 + (i + 1) := by omega
      rw [hx]

/-- Byte `m` of row `y0 + i` inside the bytes of the body. -/
theorem getD_bodyBytes (img : Image) (cols : List Int) :
    ∀ (j y0 i m : Nat), i < j → m < 3 * cols.length →
      (bodyBytes img cols ((List.range' y0 j).map (fun k : Nat => (k : Int)))).getD
          (3 * cols.length * i + m) 0
        = (rowBytes img ((y0 + i : Nat) : Int) cols).getD m 0 := by
  intro j
  induction j with
  | zero => intro y0 i m hi; omega
  | succ j ih =>
    intro y0 i m hi hm
    rw [List.range'_succ, List.map_cons, bodyBytes]
    cases i with
    | zero =>
      rw [List.getD_append _ _ _ _ (by rw [length_rowBytes]; omega)]
      simp
    | succ i =>
      rw [List.getD_append_right _ _ _ _ (by rw [length_rowBytes]; nlinarith)]
      have hidx : 3 * cols.length * (i + 1) + m - (rowBytes img (y0 : Int) cols).length
          = 3 * cols.length * i + m := by
        rw [length_rowBytes, Nat.mul_succ]; omega
      rw [hidx, ih (y0 + 1) i m (by omega) hm]
      have hy : y0 + 1 + i = y0 + (i + 1) := by omega
      rw [hy]

/-- Byte `c` of pixel `(x, y)` inside the body `Encode` writes for an image
with bounds `(0,0)-(W,H)`. -/
theorem getD_encodedBody (img : Image) (W H x y c : Nat) (hx : x < W) (hy : y < H)
    (hc : c < 3) :
    (bodyBytes img (loopRange 0 (W : Int)) (loopRange 0 (H : Int))).getD
        (3 * (y * W + x) + c) 0
      = (pixelTriple (img.At (x : Int) (y : Int))).getD c 0 := by
  have hlen : (loopRange 0 (W : Int)).length = W := by
    rw [length_loopRange, Int.sub_zero, Int.toNat_natCast]
  have h1 := getD_bodyBytes img (loopRange 0 (W : Int)) H 0 y (3 * x + c) hy
    (by rw [hlen]; omega)
  rw [hlen, ← loopRange_zero, Nat.zero_add] at h1
  have hidx : 3 * (y * W + x) + c = 3 * W * y + (3 * x + c) := by ring
  rw [hidx, h1, loopRange_zero]
  have h2 := getD_rowBytes img (y : Int) W 0 x c [] hx hc
  rw [List.append_nil, Nat.zero_add] at h2
  exact h2

/-! ## Encoding followed by decoding -/

theorem uint16_natCast (W : Nat) : uint16 (W : Int) = W % 65536 := by
  unfold uint16
  omega

/-- The width field written by `Encode` and read back by `DecodeConfig`. -/
theorem bigEndianUint16_bytes (v : Nat) (hv : v < 65536) :
    bigEndianUint16 (byte (v / 256)) (byte v) = v := by
  simp only [bigEndianUint16, byte]
  omega

/-- What `Encode` writes into an empty reliable writer, as magic, four header
bytes and body. -/
theorem Encode_written (img : Image) :
    (Encode Writer.reliable img).1.written
      = magicESI ++ (byte (uint16 img.Bounds.Max.X / 256) :: byte (uint16 img.Bounds.Max.X) ::
          configByte img.ColorModel :: 0 ::
          bodyBytes img (loopRange 0 img.Bounds.Max.X) (loopRange 0 img.Bounds.Max.Y)) := by
  simp [Writer.reliable, Encode_reliable, headerBytes, bigEndianBytes16]

theorem Encode_error (img : Image) : (Encode Writer.reliable img).2 = none := by
  simp [Writer.reliable, Encode_reliable]

/-- Decoding what `Encode` wrote for an image with bounds `(0,0)-(W,H)`: the
decoder sees the width `W mod 65536` and infers the height from the body
length `3 * W * H`. -/
theorem Decode_Encode_any (img : Image) (W H : Nat)
    (hb : img.Bounds = { Min := { X := 0, Y := 0 }, Max := { X := (W : Int), Y := (H : Int) } }) :
    Decode (Reader.ofBytes (Encode Writer.reliable img).1.written)
      = if W % 65536 = 0 then Outcome.fault RuntimeFault.divideByZero
        else Outcome.ret (some (imageAfter
          (bodyBytes img (loopRange 0 (W : Int)) (loopRange 0 (H : Int)))
          (W % 65536) (3 * W * H / 3 / (W % 65536))
          (3 * W * H / 3 / (W % 65536) * (W % 65536))), none) := by
  rw [Encode_written, hb]
  simp only [Reader.ofBytes]
  rw [Decode_shape, uint16_natCast, bigEndianUint16_bytes (W % 65536) (Nat.mod_lt _ (by omega))]
  have hlen : (bodyBytes img (loopRange 0 (W : Int)) (loopRange 0 (H : Int))).length
      = 3 * W * H := by
    rw [length_bodyBytes, length_loopRange, length_loopRange, Int.sub_zero, Int.sub_zero,
      Int.toNat_natCast, Int.toNat_natCast]
  rw [hlen]

/-- Decoding what `Encode` wrote for an image with bounds `(0,0)-(W,H)` whose
width fits the 16-bit field and is not zero. -/
theorem Decode_Encode (img : Image) (W H : Nat)
    (hb : img.Bounds = { Min := { X := 0, Y := 0 }, Max := { X := (W : Int), Y := (H : Int) } })
    (hW1 : 1 ≤ W) (hW2 : W ≤ 65535) :
    Decode (Reader.ofBytes (Encode Writer.reliable img).1.written)
      = Outcome.ret (some (imageAfter
          (bodyBytes img (loopRange 0 (W : Int)) (loopRange 0 (H : Int))) W H (H * W)), none) := by
  rw [Decode_Encode_any img W H hb, Nat.mod_eq_of_lt (by omega : W < 65536)]
  have hW0 : ¬ W = 0 := by omega
  have hlen : 3 * W * H / 3 / W = H := by
    rw [Nat.mul_assoc, Nat.mul_div_cancel_left _ (by omega),
      Nat.mul_div_cancel_left _ (by omega)]
  simp only [hW0, if_false, hlen]

theorem val_byte_channel (v : Nat) (hv : v ≤ 65535) : (byte (v / 257)).val = v / 257 := by
  simp only [byte]
  omega

/-- Pixel `(x, y)` of the image decoded from what `Encode` wrote. -/
theorem RGBAAt_Decode_Encode (img : Image) (W H x y : Nat) (hx : x < W) (hy : y < H) :
    (imageAfter (bodyBytes img (loopRange 0 (W : Int)) (loopRange 0 (H : Int))) W H
        (H * W)).RGBAAt (x : Int) (y : Int)
      = { R := byte ((img.At (x : Int) (y : Int)).r / 257),
          G := byte ((img.At (x : Int) (y : Int)).g / 257),
          B := byte ((img.At (x : Int) (y : Int)).b / 257), A := 255 } := by
  rw [RGBAAt_imageAfter _ W H x y hx hy]
  have h0 := getD_encodedBody img W H x y 0 hx hy (by omega)
  have h1 := getD_encodedBody img W H x y 1 hx hy (by omega)
  have h2 := getD_encodedBody img W H x y 2 hx hy (by omega)
  rw [Nat.add_zero] at h0
  rw [h0, h1, h2]
  simp [pixelTriple]

/-- Result of `DecodeConfig` on any input of at least eight bytes that starts with the
magic, in terms of the input's own bytes. -/
theorem DecodeConfig_input (input : List Byte) (h8 : 8 ≤ input.length)
    (hm : input.take 4 = magicESI) :
    DecodeConfig (Reader.ofBytes input) =
      if bigEndianUint16 (input.getD 4 0) (input.getD 5 0) = 0 then
        Outcome.fault RuntimeFault.divideByZero
      else Outcome.ret
        ({ ColorModel := some ColorModel.RGBAModel,
           Width := (bigEndianUint16 (input.getD 4 0) (input.getD 5 0) : Nat),
           Height := (((input.drop 8).length / 3 /
             bigEndianUint16 (input.getD 4 0) (input.getD 5 0) : Nat) : Int) }, none) := by
  have h := DecodeConfig_shape (input.getD 4 0) (input.getD 5 0) (input.getD 6 0)
    (input.getD 7 0) (input.drop 8) none
  rw [← input_shape input h8 hm] at h
  exact h

/-- Result of `Decode` on any input of at least eight bytes that starts with the magic,
in terms of the input's own bytes. -/
theorem Decode_input (input : List Byte) (h8 : 8 ≤ input.length)
    (hm : input.take 4 = magicESI) :
    Decode (Reader.ofBytes input) =
      if bigEndianUint16 (input.getD 4 0) (input.getD 5 0) = 0 then
        Outcome.fault RuntimeFault.divideByZero
      else Outcome.ret
        (some (imageAfter (input.drop 8) (bigEndianUint16 (input.getD 4 0) (input.getD 5 0))
          ((input.drop 8).length / 3 / bigEndianUint16 (input.getD 4 0) (input.getD 5 0))
          ((input.drop 8).length / 3 / bigEndianUint16 (input.getD 4 0) (input.getD 5 0) *
            bigEndianUint16 (input.getD 4 0) (input.getD 5 0))), none) := by
  have h := Decode_shape (input.getD 4 0) (input.getD 5 0) (input.getD 6 0)
    (input.getD 7 0) (input.drop 8) none
  rw [← input_shape input h8 hm] at h
  exact h

/-- The statements after the unconditional `return` of `GetColorModel` would
invert `Encode`'s config byte on the four models `Encode` tells apart. -/
theorem GetColorModel_unreachable_inverse :
    GetColorModel_unreachable (configByte ColorModel.GrayModel) = ColorModel.GrayModel ∧
    GetColorModel_unreachable (configByte ColorModel.Gray16Model) = ColorModel.Gray16Model ∧
    GetColorModel_unreachable (configByte ColorModel.RGBAModel) = ColorModel.RGBAModel ∧
    GetColorModel_unreachable (configByte ColorModel.RGBA64Model) = ColorModel.RGBA64Model := by
  decide

/-! ## Inputs shorter than eight bytes -/

/-- With fewer than three bytes after the magic, `header[2]` is out of range. -/
theorem DecodeConfig_magic_short (t : List Byte) (stop : Option GoError) (ht : t.length < 3) :
    DecodeConfig { data := magicESI ++ t, stop := stop }
      = Outcome.fault RuntimeFault.indexOutOfRange := by
  rcases t with _ | ⟨a, _ | ⟨b, _ | ⟨c, t⟩⟩⟩
  · simp [DecodeConfig, readAll, next, magicESI]
  · simp [DecodeConfig, readAll, next, magicESI]
  · simp [DecodeConfig, readAll, next, magicESI]
  · simp at ht
    omega

theorem Decode_magic_short (t : List Byte) (stop : Option GoError) (ht : t.length < 3) :
    Decode { data := magicESI ++ t, stop := stop }
      = Outcome.fault RuntimeFault.indexOutOfRange := by
  unfold Decode
  simp only [readAll, Reader.ofBytes]
  rw [DecodeConfig_magic_short t none ht]

/-- With exactly three bytes after the magic the body is empty and the height
is zero. -/
theorem DecodeConfig_magic_three (h0 h1 h2 : Byte) (stop : Option GoError) :
    DecodeConfig { data := magicESI ++ [h0, h1, h2], stop := stop } =
      if bigEndianUint16 h0 h1 = 0 then Outcome.fault RuntimeFault.divideByZero
      else Outcome.ret
        ({ ColorModel := some ColorModel.RGBAModel, Width := (bigEndianUint16 h0 h1 : Nat),
           Height := ((0 : Nat) : Int) }, none) := by
  simp only [DecodeConfig, readAll, next, magicESI, GetColorModel]
  simp only [List.cons_append, List.nil_append, List.take_succ_cons, List.take_zero,
    List.drop_succ_cons, List.drop_zero, ne_eq, not_true_eq_false, if_false, List.take_nil,
    List.drop_nil]
  by_cases hw : bigEndianUint16 h0 h1 = 0
  · simp [hw]
  · have hw2 : ¬ ((bigEndianUint16 h0 h1 : Nat) : Int) = 0 := by exact_mod_cast hw
    simp only [hw, hw2, if_false]
    rw [tdiv_size]
    simp

theorem Decode_magic_three (h0 h1 h2 : Byte) (stop : Option GoError) :
    Decode { data := magicESI ++ [h0, h1, h2], stop := stop } =
      if bigEndianUint16 h0 h1 = 0 then Outcome.fault RuntimeFault.divideByZero
      else Outcome.ret (some (imageAfter [] (bigEndianUint16 h0 h1) 0 0), none) := by
  unfold Decode
  simp only [readAll, Reader.ofBytes]
  rw [DecodeConfig_magic_three]
  by_cases hw : bigEndianUint16 h0 h1 = 0
  · simp [hw]
  · simp only [hw, if_false]
    have hb : (next 8 (magicESI ++ [h0, h1, h2])).2 = [] := by
      simp [next, magicESI]
    simp only [hb]
    have h := decodeRows_fresh [] (bigEndianUint16 h0 h1) 0
    simp only [Nat.zero_mul, Nat.mul_zero, List.drop_nil] at h
    rw [Rect_natCast] at h
    simp only [Rect_natCast, h]

theorem getElem?_eq_some_getD (l : List Byte) (i : Nat) (h : i < l.length) :
    l[i]? = some (l.getD i 0) := by
  simp [List.getD_eq_getElem?_getD, List.getElem?_eq_getElem h]

/-! ## Inputs without the magic -/

theorem DecodeConfig_bad_magic (input : List Byte) (hm : input.take 4 ≠ magicESI) :
    DecodeConfig (Reader.ofBytes input) = Outcome.ret (Config.zero, some GoError.errNotESI) := by
  simp [DecodeConfig, readAll, Reader.ofBytes, next, hm]

theorem Decode_bad_magic (input : List Byte) (hm : input.take 4 ≠ magicESI) :
    Decode (Reader.ofBytes input) = Outcome.ret (none, some GoError.errNotESI) := by
  unfold Decode
  simp only [readAll]
  have hr : Reader.ofBytes (Reader.ofBytes input).data = Reader.ofBytes input := rfl
  rw [hr, DecodeConfig_bad_magic input hm]

/-- The pixel of the fully stored image, channel by channel, as bytes present
in the body. -/
theorem pixel_of_body (body : List Byte) (W x y : Nat) (hx : x < W)
    (hy : y < body.length / 3 / W) :
    3 * (y * W + x) + 2 < body.length ∧
    body[3 * (y * W + x)]? = some
      ((imageAfter body W (body.length / 3 / W) (body.length / 3 / W * W)).RGBAAt
        (x : Int) (y : Int)).R ∧
    body[3 * (y * W + x) + 1]? = some
      ((imageAfter body W (body.length / 3 / W) (body.length / 3 / W * W)).RGBAAt
        (x : Int) (y : Int)).G ∧
    body[3 * (y * W + x) + 2]? = some
      ((imageAfter body W (body.length / 3 / W) (body.length / 3 / W * W)).RGBAAt
        (x : Int) (y : Int)).B ∧
    ((imageAfter body W (body.length / 3 / W) (body.length / 3 / W * W)).RGBAAt
        (x : Int) (y : Int)).A = 255 := by
  have hin := index_in_body body.length W x y hx hy
  rw [RGBAAt_imageAfter body W _ x y hx hy]
  exact ⟨hin, getElem?_eq_some_getD _ _ (by omega), getElem?_eq_some_getD _ _ (by omega),
    getElem?_eq_some_getD _ _ hin, rfl⟩

/-! ## The claims -/

/-- C1 (as amended): for every image with bounds `(0,0)-(W,H)`, `1 ≤ W ≤ 65535`,
any `H` and any colour model, whose colour values are 16-bit, `Encode` into a
writer that never fails returns no error, and `Decode` of the bytes written
returns no error and an image with bounds `(0,0)-(W,H)` whose pixel at every
`(x, y)` is `(r / 257, g / 257, b / 257, 255)` for the source value
`(r, g, b, _)` at `(x, y)`. -/
theorem C1_roundtrip_width_in_field (img : Image) (W H : Nat)
    (hb : img.Bounds = { Min := { X := 0, Y := 0 }, Max := { X := (W : Int), Y := (H : Int) } })
    (hW1 : 1 ≤ W) (hW2 : W ≤ 65535)
    (h16 : ∀ x y : Int, (img.At x y).r ≤ 65535 ∧ (img.At x y).g ≤ 65535 ∧
      (img.At x y).b ≤ 65535) :
    (Encode Writer.reliable img).2 = none ∧
    ∃ out : RGBAImage,
      Decode (Reader.ofBytes (Encode Writer.reliable img).1.written)
        = Outcome.ret (some out, none) ∧
      out.Rect = { Min := { X := 0, Y := 0 }, Max := { X := (W : Int), Y := (H : Int) } } ∧
      ∀ x y : Nat, x < W → y < H →
        (out.RGBAAt (x : Int) (y : Int)).R.val = (img.At (x : Int) (y : Int)).r / 257 ∧
        (out.RGBAAt (x : Int) (y : Int)).G.val = (img.At (x : Int) (y : Int)).g / 257 ∧
        (out.RGBAAt (x : Int) (y : Int)).B.val = (img.At (x : Int) (y : Int)).b / 257 ∧
        (out.RGBAAt (x : Int) (y : Int)).A = 255 := by
  refine ⟨Encode_error img, _, Decode_Encode img W H hb hW1 hW2, rfl, ?_⟩
  intro x y hx hy
  rw [RGBAAt_Decode_Encode img W H x y hx hy]
  obtain ⟨hr, hg, hbl⟩ := h16 (x : Int) (y : Int)
  exact ⟨val_byte_channel _ hr, val_byte_channel _ hg, val_byte_channel _ hbl, rfl⟩

/-- C1 witness: the amended round trip at a 2 by 2 `Gray` image of value
`(514, 514, 514, 65535)`. -/
theorem C1_roundtrip_width_in_field_witness :
    (Encode Writer.reliable (Image.uniform ColorModel.GrayModel
      { Min := { X := 0, Y := 0 }, Max := { X := 2, Y := 2 } }
      { r := 514, g := 514, b := 514, a := 65535 })).2 = none ∧
    ∃ out : RGBAImage,
      Decode (Reader.ofBytes (Encode Writer.reliable (Image.uniform ColorModel.GrayModel
        { Min := { X := 0, Y := 0 }, Max := { X := 2, Y := 2 } }
        { r := 514, g := 514, b := 514, a := 65535 })).1.written)
        = Outcome.ret (some out, none) ∧
      out.Rect = { Min := { X := 0, Y := 0 }, Max := { X := ((2 : Nat) : Int), Y := ((2 : Nat) : Int) } } ∧
      ∀ x y : Nat, x < 2 → y < 2 →
        (out.RGBAAt (x : Int) (y : Int)).R.val = 514 / 257 ∧
        (out.RGBAAt (x : Int) (y : Int)).G.val = 514 / 257 ∧
        (out.RGBAAt (x : Int) (y : Int)).B.val = 514 / 257 ∧
        (out.RGBAAt (x : Int) (y : Int)).A = 255 :=
  C1_roundtrip_width_in_field
    (Image.uniform ColorModel.GrayModel
      { Min := { X := 0, Y := 0 }, Max := { X := 2, Y := 2 } }
      { r := 514, g := 514, b := 514, a := 65535 })
    2 2 rfl (by decide) (by decide) (fun _ _ => by simp [Image.uniform])

/-- C1 counterexample: a 65537 by 1 image (bounds `(0,0)-(65537,1)`) is encoded
with the width field `65537 mod 65536 = 1`, and `Decode` of the bytes written
returns an image with bounds `(0,0)-(1,65537)`, not `(0,0)-(65537,1)`. -/
theorem C1_counterexample_width_65537 :
    ∃ out : RGBAImage,
      Decode (Reader.ofBytes (Encode Writer.reliable (Image.uniform ColorModel.RGBAModel
        { Min := { X := 0, Y := 0 }, Max := { X := 65537, Y := 1 } }
        { r := 0, g := 0, b := 0, a := 65535 })).1.written)
        = Outcome.ret (some out, none) ∧
      out.Rect = { Min := { X := 0, Y := 0 }, Max := { X := 1, Y := 65537 } } ∧
      out.Rect ≠ { Min := { X := 0, Y := 0 }, Max := { X := 65537, Y := 1 } } := by
  have h := Decode_Encode_any (Image.uniform ColorModel.RGBAModel
      { Min := { X := 0, Y := 0 }, Max := { X := 65537, Y := 1 } }
      { r := 0, g := 0, b := 0, a := 65535 }) 65537 1 rfl
  have e1 : 65537 % 65536 = 1 := by decide
  have e2 : 3 * 65537 * 1 / 3 / 1 = 65537 := by decide
  rw [e1, e2] at h
  simp only [Nat.one_ne_zero, if_false] at h
  refine ⟨_, h, rfl, ?_⟩
  simp only [imageAfter]
  decide

/-- C2: for every input of at least 8 bytes that starts with `"esi1"` and has a
non-zero width field `W` (bytes 4..5, big-endian), whatever the body (bytes from
offset 8 on, of any length and content), `Decode` returns no error and an image
with bounds `(0,0)-(W, bodyLength / 3 / W)`: width `W`, height
`floor(bodyLength / 3 / W)`. -/
theorem C2_corruption_tolerance (input : List Byte) (h8 : 8 ≤ input.length)
    (hm : input.take 4 = magicESI)
    (hw : bigEndianUint16 (input.getD 4 0) (input.getD 5 0) ≠ 0) :
    ∃ out : RGBAImage,
      Decode (Reader.ofBytes input) = Outcome.ret (some out, none) ∧
      out.Rect = { Min := { X := 0, Y := 0 },
                   Max := { X := (bigEndianUint16 (input.getD 4 0) (input.getD 5 0) : Nat),
                            Y := (((input.length - 8) / 3 /
                              bigEndianUint16 (input.getD 4 0) (input.getD 5 0) : Nat) : Int) } } ∧
      out.Rect.Dx = (bigEndianUint16 (input.getD 4 0) (input.getD 5 0) : Nat) ∧
      out.Rect.Dy = (((input.length - 8) / 3 /
        bigEndianUint16 (input.getD 4 0) (input.getD 5 0) : Nat) : Int) := by
  have hD := Decode_input input h8 hm
  rw [if_neg hw] at hD
  refine ⟨_, hD, ?_, ?_, ?_⟩
  · simp [imageAfter]
  · simp [imageAfter, Rectangle.Dx]
  · simp [imageAfter, Rectangle.Dy]

/-- C2 witness: a header of width 2 followed by seven arbitrary body bytes (one
row of two pixels and a dangling byte). -/
theorem C2_corruption_tolerance_witness :
    ∃ out : RGBAImage,
      Decode (Reader.ofBytes [0x65, 0x73, 0x69, 0x31, 0, 2, 0xA0, 0, 9, 8, 7, 6, 5, 4, 3])
        = Outcome.ret (some out, none) ∧
      out.Rect = { Min := { X := 0, Y := 0 },
                   Max := { X := ((2 : Nat) : Int), Y := ((1 : Nat) : Int) } } ∧
      out.Rect.Dx = ((2 : Nat) : Int) ∧ out.Rect.Dy = ((1 : Nat) : Int) :=
  C2_corruption_tolerance [0x65, 0x73, 0x69, 0x31, 0, 2, 0xA0, 0, 9, 8, 7, 6, 5, 4, 3]
    (by decide) (by decide) (by decide)

/-- C3: for every input whose first four bytes are not exactly `"esi1"` (inputs
shorter than four bytes and the empty input included), `DecodeConfig` returns
the zero config with `errNotESI`, and `Decode` returns no image with
`errNotESI`. -/
theorem C3_magic_rejection (input : List Byte) (hm : input.take 4 ≠ magicESI) :
    DecodeConfig (Reader.ofBytes input) = Outcome.ret (Config.zero, some GoError.errNotESI) ∧
    Decode (Reader.ofBytes input) = Outcome.ret (none, some GoError.errNotESI) := by
  exact ⟨DecodeConfig_bad_magic input hm, Decode_bad_magic input hm⟩

/-- C3 witness: the empty input. -/
theorem C3_magic_rejection_witness :
    DecodeConfig (Reader.ofBytes []) = Outcome.ret (Config.zero, some GoError.errNotESI) ∧
    Decode (Reader.ofBytes []) = Outcome.ret (none, some GoError.errNotESI) :=
  C3_magic_rejection [] (by decide)

/-- C4 (what the code does): for every input of at least 8 bytes that starts
with `"esi1"` and whose width field is zero, `DecodeConfig` and `Decode` stop
in the division fault of `size / 3 / cfg.Width`; in particular they return no
error value, and `errImageInvalid` is not produced. -/
theorem C4_zero_width_divides_by_zero (input : List Byte) (h8 : 8 ≤ input.length)
    (hm : input.take 4 = magicESI)
    (hw : bigEndianUint16 (input.getD 4 0) (input.getD 5 0) = 0) :
    DecodeConfig (Reader.ofBytes input) = Outcome.fault RuntimeFault.divideByZero ∧
    Decode (Reader.ofBytes input) = Outcome.fault RuntimeFault.divideByZero ∧
    (∀ cfg, DecodeConfig (Reader.ofBytes input)
      ≠ Outcome.ret (cfg, some GoError.errImageInvalid)) ∧
    (∀ o, Decode (Reader.ofBytes input) ≠ Outcome.ret (o, some GoError.errImageInvalid)) := by
  have h1 : DecodeConfig (Reader.ofBytes input) = Outcome.fault RuntimeFault.divideByZero := by
    rw [DecodeConfig_input input h8 hm, if_pos hw]
  have h2 : Decode (Reader.ofBytes input) = Outcome.fault RuntimeFault.divideByZero := by
    rw [Decode_input input h8 hm, if_pos hw]
  refine ⟨h1, h2, ?_, ?_⟩
  · intro cfg; rw [h1]; exact fun h => Outcome.noConfusion h
  · intro o; rw [h2]; exact fun h => Outcome.noConfusion h

/-- C4 failing input: the eight bytes `65 73 69 31 00 00 A0 00`. -/
theorem C4_zero_width_failing_input :
    DecodeConfig (Reader.ofBytes [0x65, 0x73, 0x69, 0x31, 0, 0, 0xA0, 0])
      = Outcome.fault RuntimeFault.divideByZero ∧
    Decode (Reader.ofBytes [0x65, 0x73, 0x69, 0x31, 0, 0, 0xA0, 0])
      = Outcome.fault RuntimeFault.divideByZero ∧
    (∀ cfg, DecodeConfig (Reader.ofBytes [0x65, 0x73, 0x69, 0x31, 0, 0, 0xA0, 0])
      ≠ Outcome.ret (cfg, some GoError.errImageInvalid)) ∧
    (∀ o, Decode (Reader.ofBytes [0x65, 0x73, 0x69, 0x31, 0, 0, 0xA0, 0])
      ≠ Outcome.ret (o, some GoError.errImageInvalid)) :=
  C4_zero_width_divides_by_zero [0x65, 0x73, 0x69, 0x31, 0, 0, 0xA0, 0]
    (by decide) (by decide) (by decide)

/-- C5 (what the code does): `GetColorModel` returns `RGBAModel` for every
byte, so applied to the config byte `Encode` writes it gives back the model only
for `RGBAModel`; for `GrayModel`, `Gray16Model` and `RGBA64Model` it returns
`RGBAModel`, not the model encoded. -/
theorem C5_GetColorModel_constant :
    (∀ b : Byte, GetColorModel b = ColorModel.RGBAModel) ∧
    GetColorModel (configByte ColorModel.RGBAModel) = ColorModel.RGBAModel ∧
    GetColorModel (configByte ColorModel.GrayModel) ≠ ColorModel.GrayModel ∧
    GetColorModel (configByte ColorModel.Gray16Model) ≠ ColorModel.Gray16Model ∧
    GetColorModel (configByte ColorModel.RGBA64Model) ≠ ColorModel.RGBA64Model := by
  refine ⟨fun _ => rfl, rfl, ?_, ?_, ?_⟩ <;> simp [GetColorModel]

/-- C6: `DecodeConfig` on the eight bytes `65 73 69 31 00 20 A0 00` followed by
any body returns no error and `Width = 32`; and for every input of at least
8 bytes with the magic `"esi1"` and a non-zero width field it returns no error
and `Width = 256 * byte[4] + byte[5]`, with nothing added. -/
theorem C6_width_literal :
    (∀ body : List Byte, ∃ cfg : Config,
      DecodeConfig (Reader.ofBytes ([0x65, 0x73, 0x69, 0x31, 0x00, 0x20, 0xA0, 0x00] ++ body))
        = Outcome.ret (cfg, none) ∧ cfg.Width = 32) ∧
    (∀ input : List Byte, 8 ≤ input.length → input.take 4 = magicESI →
      256 * (input.getD 4 0).val + (input.getD 5 0).val ≠ 0 →
      ∃ cfg : Config, DecodeConfig (Reader.ofBytes input) = Outcome.ret (cfg, none) ∧
        cfg.Width = 256 * ((input.getD 4 0).val : Int) + ((input.getD 5 0).val : Int)) := by
  constructor
  · intro body
    have h := DecodeConfig_shape 0x00 0x20 0xA0 0x00 body none
    have hw : bigEndianUint16 0x00 0x20 = 32 := by decide
    rw [hw] at h
    simp only [Nat.reduceEqDiff, if_false] at h
    exact ⟨_, h, rfl⟩
  · intro input h8 hm hw
    have h := DecodeConfig_input input h8 hm
    have hw2 : ¬ bigEndianUint16 (input.getD 4 0) (input.getD 5 0) = 0 := hw
    rw [if_neg hw2] at h
    refine ⟨_, h, ?_⟩
    simp [bigEndianUint16]

/-- C6 witness: the general part at a header with width field `01 02` (258)
and a three-byte body. -/
theorem C6_width_literal_witness :
    ∃ cfg : Config,
      DecodeConfig (Reader.ofBytes [0x65, 0x73, 0x69, 0x31, 1, 2, 0xA0, 0, 7, 7, 7])
        = Outcome.ret (cfg, none) ∧
      cfg.Width = 256 * (((1 : Byte).val : Nat) : Int) + (((2 : Byte).val : Nat) : Int) :=
  C6_width_literal.2 [0x65, 0x73, 0x69, 0x31, 1, 2, 0xA0, 0, 7, 7, 7]
    (by decide) (by decide) (by decide)

/-- C7: for every input of at least 8 bytes with magic `"esi1"`, width field
`W ≥ 1` and body length `n`, `DecodeConfig` returns no error and
`Height = floor(floor(n / 3) / W)`; this is the largest `H` with
`3 * W * H ≤ n`, so `W * Height * 3 ≤ n` and the remainder
`n - 3 * W * Height` is less than `3 * W`. -/
theorem C7_height_inference (input : List Byte) (h8 : 8 ≤ input.length)
    (hm : input.take 4 = magicESI)
    (hw : 1 ≤ bigEndianUint16 (input.getD 4 0) (input.getD 5 0)) :
    ∃ (cfg : Config) (H : Nat),
      DecodeConfig (Reader.ofBytes input) = Outcome.ret (cfg, none) ∧
      cfg.Height = (H : Int) ∧
      H = (input.length - 8) / 3 / bigEndianUint16 (input.getD 4 0) (input.getD 5 0) ∧
      3 * bigEndianUint16 (input.getD 4 0) (input.getD 5 0) * H ≤ input.length - 8 ∧
      (∀ H2 : Nat, 3 * bigEndianUint16 (input.getD 4 0) (input.getD 5 0) * H2
          ≤ input.length - 8 → H2 ≤ H) ∧
      bigEndianUint16 (input.getD 4 0) (input.getD 5 0) * H * 3 ≤ input.length - 8 ∧
      input.length - 8 - 3 * bigEndianUint16 (input.getD 4 0) (input.getD 5 0) * H
        < 3 * bigEndianUint16 (input.getD 4 0) (input.getD 5 0) := by
  have h := DecodeConfig_input input h8 hm
  rw [if_neg (by omega)] at h
  rw [List.length_drop] at h
  generalize bigEndianUint16 (input.getD 4 0) (input.getD 5 0) = W at hw h ⊢
  generalize input.length - 8 = n at h ⊢
  have hle : 3 * W * (n / 3 / W) ≤ n := by
    have h2 : W * (n / 3 / W) ≤ n / 3 := Nat.mul_div_le (n / 3) W
    have h3 : 3 * (n / 3) ≤ n := Nat.mul_div_le n 3
    calc 3 * W * (n / 3 / W) = 3 * (W * (n / 3 / W)) := by ring
      _ ≤ 3 * (n / 3) := Nat.mul_le_mul_left 3 h2
      _ ≤ n := h3
  have hmax : ∀ H2 : Nat, 3 * W * H2 ≤ n → H2 ≤ n / 3 / W := by
    intro H2 hH2
    rw [Nat.le_div_iff_mul_le (by omega), Nat.le_div_iff_mul_le (by omega)]
    calc H2 * W * 3 = 3 * W * H2 := by ring
      _ ≤ n := hH2
  have hrem : n - 3 * W * (n / 3 / W) < 3 * W := by
    by_contra hcon
    have h5 : 3 * W * (n / 3 / W + 1) ≤ n := by
      have : 3 * W * (n / 3 / W + 1) = 3 * W * (n / 3 / W) + 3 * W := by ring
      omega
    have := hmax _ h5
    omega
  refine ⟨_, n / 3 / W, h, rfl, rfl, hle, hmax, ?_, hrem⟩
  calc W * (n / 3 / W) * 3 = 3 * W * (n / 3 / W) := by ring
    _ ≤ n := hle

/-- C7 witness: width 2 and a body of 13 bytes give height 2, with one byte
left over. -/
theorem C7_height_inference_witness :
    ∃ (cfg : Config) (H : Nat),
      DecodeConfig (Reader.ofBytes
        [0x65, 0x73, 0x69, 0x31, 0, 2, 0xA0, 0, 1, 2, 3, 4, 5, 6, 7, 8, 9, 10, 11, 12, 13])
        = Outcome.ret (cfg, none) ∧
      cfg.Height = (H : Int) ∧
      H = (21 - 8) / 3 / bigEndianUint16 0 2 ∧
      3 * bigEndianUint16 0 2 * H ≤ 21 - 8 ∧
      (∀ H2 : Nat, 3 * bigEndianUint16 0 2 * H2 ≤ 21 - 8 → H2 ≤ H) ∧
      bigEndianUint16 0 2 * H * 3 ≤ 21 - 8 ∧
      21 - 8 - 3 * bigEndianUint16 0 2 * H < 3 * bigEndianUint16 0 2 :=
  C7_height_inference
    [0x65, 0x73, 0x69, 0x31, 0, 2, 0xA0, 0, 1, 2, 3, 4, 5, 6, 7, 8, 9, 10, 11, 12, 13]
    (by decide) (by decide) (by decide)

/-- C8: for every input on which `Decode` succeeds, the image returned has
bounds `(0,0)-(W,H)`, and with `B` the bytes of the input from offset 8, every
pixel `(x, y)` with `x < W`, `y < H` is `R = B[3*(y*W+x)]`,
`G = B[3*(y*W+x)+1]`, `B = B[3*(y*W+x)+2]`, `A = 255`; all three indices lie
inside `B`, so no channel is zero-filled and alpha is never read. -/
theorem C8_decoded_pixel_layout (input : List Byte) (out : RGBAImage)
    (hd : Decode (Reader.ofBytes input) = Outcome.ret (some out, none)) :
    ∃ W H : Nat,
      out.Rect = { Min := { X := 0, Y := 0 }, Max := { X := (W : Int), Y := (H : Int) } } ∧
      ∀ x y : Nat, x < W → y < H →
        3 * (y * W + x) + 2 < (input.drop 8).length ∧
        (input.drop 8)[3 * (y * W + x)]? = some (out.RGBAAt (x : Int) (y : Int)).R ∧
        (input.drop 8)[3 * (y * W + x) + 1]? = some (out.RGBAAt (x : Int) (y : Int)).G ∧
        (input.drop 8)[3 * (y * W + x) + 2]? = some (out.RGBAAt (x : Int) (y : Int)).B ∧
        (out.RGBAAt (x : Int) (y : Int)).A = 255 := by
  by_cases hm : input.take 4 = magicESI
  · by_cases h8 : 8 ≤ input.length
    · rw [Decode_input input h8 hm] at hd
      by_cases hw : bigEndianUint16 (input.getD 4 0) (input.getD 5 0) = 0
      · rw [if_pos hw] at hd
        exact Outcome.noConfusion hd
      · rw [if_neg hw] at hd
        have ho : imageAfter (input.drop 8) (bigEndianUint16 (input.getD 4 0) (input.getD 5 0))
            ((input.drop 8).length / 3 / bigEndianUint16 (input.getD 4 0) (input.getD 5 0))
            ((input.drop 8).length / 3 / bigEndianUint16 (input.getD 4 0) (input.getD 5 0) *
              bigEndianUint16 (input.getD 4 0) (input.getD 5 0)) = out := by
          injection hd with h1
          injection h1 with h2
          injection h2
        refine ⟨bigEndianUint16 (input.getD 4 0) (input.getD 5 0),
          (input.drop 8).length / 3 / bigEndianUint16 (input.getD 4 0) (input.getD 5 0), ?_, ?_⟩
        · rw [← ho]; rfl
        · intro x y hx hy
          rw [← ho]
          exact pixel_of_body (input.drop 8) _ x y hx hy
    · have hsplit : input = magicESI ++ input.drop 4 := by
        conv_lhs => rw [← List.take_append_drop 4 input, hm]
      have hlen : (input.drop 4).length < 4 := by
        rw [List.length_drop]; omega
      rw [hsplit] at hd
      rcases hL : input.drop 4 with _ | ⟨a, _ | ⟨b, _ | ⟨c, _ | ⟨d, t⟩⟩⟩⟩
      · rw [hL] at hd
        have := Decode_magic_short [] none (by simp)
        rw [Reader.ofBytes, this] at hd
        exact Outcome.noConfusion hd
      · rw [hL] at hd
        have := Decode_magic_short [a] none (by simp)
        rw [Reader.ofBytes, this] at hd
        exact Outcome.noConfusion hd
      · rw [hL] at hd
        have := Decode_magic_short [a, b] none (by simp)
        rw [Reader.ofBytes, this] at hd
        exact Outcome.noConfusion hd
      · rw [hL] at hd
        rw [Reader.ofBytes, Decode_magic_three a b c none] at hd
        by_cases hw : bigEndianUint16 a b = 0
        · rw [if_pos hw] at hd
          exact Outcome.noConfusion hd
        · rw [if_neg hw] at hd
          have ho : imageAfter [] (bigEndianUint16 a b) 0 0 = out := by
            injection hd with h1
            injection h1 with h2
            injection h2
          refine ⟨bigEndianUint16 a b, 0, ?_, ?_⟩
          · rw [← ho]; rfl
          · intro x y _ hy
            omega
      · rw [hL] at hlen
        simp only [List.length_cons] at hlen
        omega
  · rw [Decode_bad_magic input hm] at hd
    injection hd with h1
    injection h1 with h2
    exact Option.noConfusion h2

/-- C8 witness: a header of width 2 with a 13-byte body; `Decode` succeeds and
the four pixels are read off the body. -/
theorem C8_decoded_pixel_layout_witness :
    ∃ W H : Nat,
      (imageAfter [1, 2, 3, 4, 5, 6, 7, 8, 9, 10, 11, 12, 13] 2 2 4).Rect
        = { Min := { X := 0, Y := 0 }, Max := { X := (W : Int), Y := (H : Int) } } ∧
      ∀ x y : Nat, x < W → y < H →
        3 * (y * W + x) + 2 < (List.drop 8
          ([0x65, 0x73, 0x69, 0x31, 0, 2, 0xA0, 0, 1, 2, 3, 4, 5, 6, 7, 8, 9, 10, 11, 12, 13] :
            List Byte)).length ∧
        (List.drop 8
          ([0x65, 0x73, 0x69, 0x31, 0, 2, 0xA0, 0, 1, 2, 3, 4, 5, 6, 7, 8, 9, 10, 11, 12, 13] :
            List Byte))[3 * (y * W + x)]?
          = some ((imageAfter [1, 2, 3, 4, 5, 6, 7, 8, 9, 10, 11, 12, 13] 2 2 4).RGBAAt
              (x : Int) (y : Int)).R ∧
        (List.drop 8
          ([0x65, 0x73, 0x69, 0x31, 0, 2, 0xA0, 0, 1, 2, 3, 4, 5, 6, 7, 8, 9, 10, 11, 12, 13] :
            List Byte))[3 * (y * W + x) + 1]?
          = some ((imageAfter [1, 2, 3, 4, 5, 6, 7, 8, 9, 10, 11, 12, 13] 2 2 4).RGBAAt
              (x : Int) (y : Int)).G ∧
        (List.drop 8
          ([0x65, 0x73, 0x69, 0x31, 0, 2, 0xA0, 0, 1, 2, 3, 4, 5, 6, 7, 8, 9, 10, 11, 12, 13] :
            List Byte))[3 * (y * W + x) + 2]?
          = some ((imageAfter [1, 2, 3, 4, 5, 6, 7, 8, 9, 10, 11, 12, 13] 2 2 4).RGBAAt
              (x : Int) (y : Int)).B ∧
        ((imageAfter [1, 2, 3, 4, 5, 6, 7, 8, 9, 10, 11, 12, 13] 2 2 4).RGBAAt
              (x : Int) (y : Int)).A = 255 :=
  C8_decoded_pixel_layout
    [0x65, 0x73, 0x69, 0x31, 0, 2, 0xA0, 0, 1, 2, 3, 4, 5, 6, 7, 8, 9, 10, 11, 12, 13]
    (imageAfter [1, 2, 3, 4, 5, 6, 7, 8, 9, 10, 11, 12, 13] 2 2 4) (by decide)

/-- C9 (as amended): for every image and a writer that never fails, `Encode`
returns no error and the first 8 bytes written are `'e','s','i','1'`, then two
bytes `hi`, `lo` with `256 * hi + lo = bounds.Max.X mod 65536` (the upper
corner's X, big-endian, high byte first, reduced modulo 65536), then the config
byte, then one zero byte; for `Max.X = 65536` the two width bytes are
`0x00 0x00`; and when the lower corner of the bounds has `X = 0` the two bytes
are the image width `Dx` modulo 65536. -/
theorem C9_encoded_header_layout :
    (∀ img : Image,
      (Encode Writer.reliable img).2 = none ∧
      ∃ hi lo : Byte,
        (Encode Writer.reliable img).1.written.take 8
          = [0x65, 0x73, 0x69, 0x31, hi, lo, configByte img.ColorModel, 0] ∧
        ((256 * hi.val + lo.val : Nat) : Int) = img.Bounds.Max.X % 65536) ∧
    (∀ img : Image, img.Bounds.Max.X = 65536 →
      (Encode Writer.reliable img).1.written.take 8
        = [0x65, 0x73, 0x69, 0x31, 0x00, 0x00, configByte img.ColorModel, 0]) ∧
    (∀ img : Image, img.Bounds.Min.X = 0 →
      ∃ hi lo : Byte,
        (Encode Writer.reliable img).1.written.take 8
          = [0x65, 0x73, 0x69, 0x31, hi, lo, configByte img.ColorModel, 0] ∧
        ((256 * hi.val + lo.val : Nat) : Int) = img.Bounds.Dx % 65536) := by
  have hgen : ∀ img : Image,
      (Encode Writer.reliable img).1.written.take 8
        = [0x65, 0x73, 0x69, 0x31, byte (uint16 img.Bounds.Max.X / 256),
            byte (uint16 img.Bounds.Max.X), configByte img.ColorModel, 0] ∧
      ((256 * (byte (uint16 img.Bounds.Max.X / 256)).val
          + (byte (uint16 img.Bounds.Max.X)).val : Nat) : Int) = img.Bounds.Max.X % 65536 := by
    intro img
    constructor
    · rw [Encode_written]
      simp [magicESI]
    · simp only [byte, uint16]
      omega
  refine ⟨?_, ?_, ?_⟩
  · intro img
    exact ⟨Encode_error img, _, _, (hgen img).1, (hgen img).2⟩
  · intro img h
    rw [Encode_written, h]
    have h1 : byte (uint16 65536 / 256) = 0 := by decide
    have h2 : byte (uint16 65536) = 0 := by decide
    rw [h1, h2]
    simp [magicESI]
  · intro img h0
    refine ⟨_, _, (hgen img).1, ?_⟩
    rw [(hgen img).2, Rectangle.Dx, h0, Int.sub_zero]

/-- C9 witness: an image with bounds `(0,0)-(65536,0)` gets the width bytes
`0x00 0x00`. -/
theorem C9_encoded_header_layout_witness :
    (Encode Writer.reliable (Image.uniform ColorModel.RGBAModel
      { Min := { X := 0, Y := 0 }, Max := { X := 65536, Y := 0 } }
      { r := 0, g := 0, b := 0, a := 65535 })).1.written.take 8
      = [0x65, 0x73, 0x69, 0x31, 0x00, 0x00, configByte ColorModel.RGBAModel, 0] :=
  C9_encoded_header_layout.2.1 (Image.uniform ColorModel.RGBAModel
      { Min := { X := 0, Y := 0 }, Max := { X := 65536, Y := 0 } }
      { r := 0, g := 0, b := 0, a := 65535 }) rfl

/-- C9 counterexample: the image with bounds `(3,0)-(8,1)` has width
`Dx = 8 - 3 = 5`, but the width bytes `Encode` writes are `0x00 0x08`, the
value 8 of `bounds.Max.X`, not 5. -/
theorem C9_counterexample_offset_bounds :
    (Image.solid ColorModel.RGBAModel
      { Min := { X := 3, Y := 0 }, Max := { X := 8, Y := 1 } }
      { r := 65535, g := 65535, b := 65535, a := 65535 }).Bounds.Dx = 5 ∧
    (Encode Writer.reliable (Image.solid ColorModel.RGBAModel
      { Min := { X := 3, Y := 0 }, Max := { X := 8, Y := 1 } }
      { r := 65535, g := 65535, b := 65535, a := 65535 })).1.written.take 8
      = [0x65, 0x73, 0x69, 0x31, 0x00, 0x08, 0xA0, 0x00] ∧
    bigEndianUint16 0x00 0x08 = 8 ∧
    bigEndianUint16 0x00 0x08 ≠ 5 := by
  decide

/-- C10 (as amended): for every image and a writer that never fails, with
`W = bounds.Max.X` and `H = bounds.Max.Y` (negative values counting as 0),
`Encode` returns no error and the bytes written after the 8-byte header are
exactly the `W * H` pixel triples, `3 * W * H` bytes whatever the colour model,
with nothing after the last pixel. -/
theorem C10_encoded_body_length (img : Image) :
    (Encode Writer.reliable img).2 = none ∧
    (Encode Writer.reliable img).1.written.drop 8
      = bodyBytes img (loopRange 0 img.Bounds.Max.X) (loopRange 0 img.Bounds.Max.Y) ∧
    ((Encode Writer.reliable img).1.written.drop 8).length
      = 3 * img.Bounds.Max.X.toNat * img.Bounds.Max.Y.toNat ∧
    (Encode Writer.reliable img).1.written.length
      = 8 + 3 * img.Bounds.Max.X.toNat * img.Bounds.Max.Y.toNat := by
  have hd : (Encode Writer.reliable img).1.written.drop 8
      = bodyBytes img (loopRange 0 img.Bounds.Max.X) (loopRange 0 img.Bounds.Max.Y) := by
    rw [Encode_written]
    simp [magicESI]
  have hl : (bodyBytes img (loopRange 0 img.Bounds.Max.X) (loopRange 0 img.Bounds.Max.Y)).length
      = 3 * img.Bounds.Max.X.toNat * img.Bounds.Max.Y.toNat := by
    rw [length_bodyBytes, length_loopRange, length_loopRange, Int.sub_zero, Int.sub_zero]
  refine ⟨Encode_error img, hd, ?_, ?_⟩
  · rw [hd, hl]
  · rw [Encode_written]
    simp only [List.length_append, List.length_cons, hl, magicESI, List.length_nil]
    omega

/-- C10 counterexample: for a 1 by 1 `Gray` image the claim gives a body of
`1 * 1 * bytesPerPixel(Gray) = 1` byte, while `Encode` writes 3 bytes after the
header. -/
theorem C10_counterexample_gray :
    ((Encode Writer.reliable (Image.uniform ColorModel.GrayModel
      { Min := { X := 0, Y := 0 }, Max := { X := 1, Y := 1 } }
      { r := 257, g := 257, b := 257, a := 65535 })).1.written.drop 8).length = 3 ∧
    1 * 1 * bytesPerPixelSpec ColorModel.GrayModel = 1 ∧
    ((Encode Writer.reliable (Image.uniform ColorModel.GrayModel
      { Min := { X := 0, Y := 0 }, Max := { X := 1, Y := 1 } }
      { r := 257, g := 257, b := 257, a := 65535 })).1.written.drop 8).length
      ≠ 1 * 1 * bytesPerPixelSpec ColorModel.GrayModel := by
  decide

/-! ## Read faults of the underlying stream -/

/-- The condition that ended the stream never reaches `DecodeConfig`: the
result of `buf.ReadFrom(r)` is not assigned. -/
theorem DecodeConfig_ignores_stop (r : Reader) :
    DecodeConfig r = DecodeConfig (Reader.ofBytes r.data) := rfl

/-- The condition that ended the stream never reaches `Decode`: the result of
`io.Copy(&buf, r)` is not assigned. -/
theorem Decode_ignores_stop (r : Reader) :
    Decode r = Decode (Reader.ofBytes r.data) := rfl

/-- The only error value `DecodeConfig` ever returns is `errNotESI`. -/
theorem DecodeConfig_error (r : Reader) (cfg : Config) (e : GoError)
    (h : DecodeConfig r = Outcome.ret (cfg, some e)) : e = GoError.errNotESI := by
  unfold DecodeConfig at h
  simp only [readAll, next] at h
  split at h
  · injection h with h1
    injection h1 with _ h2
    injection h2 with h3
    exact h3.symm
  · split at h
    · split at h
      · exact Outcome.noConfusion h
      · injection h with h1
        injection h1 with _ h2
        exact Option.noConfusion h2
    · exact Outcome.noConfusion h

/-- The three ways `Decode` can end on a list of bytes. -/
theorem Decode_cases (input : List Byte) :
    Decode (Reader.ofBytes input) = Outcome.ret (none, some GoError.errNotESI) ∨
    (∃ f : RuntimeFault, Decode (Reader.ofBytes input) = Outcome.fault f) ∨
    (∃ img : RGBAImage, Decode (Reader.ofBytes input) = Outcome.ret (some img, none)) := by
  by_cases hm : input.take 4 = magicESI
  · by_cases h8 : 8 ≤ input.length
    · rw [Decode_input input h8 hm]
      by_cases hw : bigEndianUint16 (input.getD 4 0) (input.getD 5 0) = 0
      · rw [if_pos hw]; exact Or.inr (Or.inl ⟨_, rfl⟩)
      · rw [if_neg hw]; exact Or.inr (Or.inr ⟨_, rfl⟩)
    · have hsplit : input = magicESI ++ input.drop 4 := by
        conv_lhs => rw [← List.take_append_drop 4 input, hm]
      have hlen : (input.drop 4).length < 4 := by
        rw [List.length_drop]; omega
      rw [hsplit]
      rcases hL : input.drop 4 with _ | ⟨a, _ | ⟨b, _ | ⟨c, _ | ⟨d, t⟩⟩⟩⟩
      · rw [Reader.ofBytes, Decode_magic_short [] none (by simp)]
        exact Or.inr (Or.inl ⟨_, rfl⟩)
      · rw [Reader.ofBytes, Decode_magic_short [a] none (by simp)]
        exact Or.inr (Or.inl ⟨_, rfl⟩)
      · rw [Reader.ofBytes, Decode_magic_short [a, b] none (by simp)]
        exact Or.inr (Or.inl ⟨_, rfl⟩)
      · rw [Reader.ofBytes, Decode_magic_three a b c none]
        by_cases hw : bigEndianUint16 a b = 0
        · rw [if_pos hw]; exact Or.inr (Or.inl ⟨_, rfl⟩)
        · rw [if_neg hw]; exact Or.inr (Or.inr ⟨_, rfl⟩)
      · rw [hL] at hlen
        simp only [List.length_cons] at hlen
        omega
  · exact Or.inl (Decode_bad_magic input hm)

/-- The only error value `Decode` ever returns is `errNotESI`. -/
theorem Decode_error (r : Reader) (o : Option RGBAImage) (e : GoError)
    (h : Decode r = Outcome.ret (o, some e)) : e = GoError.errNotESI := by
  rw [Decode_ignores_stop] at h
  rcases Decode_cases r.data with h1 | ⟨f, h1⟩ | ⟨img, h1⟩
  · rw [h1] at h
    injection h with h2
    injection h2 with _ h3
    injection h3 with h4
    exact h4.symm
  · rw [h1] at h
    exact Outcome.noConfusion h
  · rw [h1] at h
    injection h with h2
    injection h2 with _ h3
    exact Option.noConfusion h3

/-- C11 (what the code does): a read fault of the stream is dropped. For every
reader, `DecodeConfig` and `Decode` return exactly what they return on the
bytes delivered before the fault; neither ever returns a fault `ioFault code`
of the stream as its error; and on the stream that delivers
`65 73 69 31 00 01 A0 00 01 02 03` and then fails with `ioFault 7`,
`DecodeConfig` returns a config of width 1 and height 1 with a `nil` error and
`Decode` returns an image with a `nil` error. -/
theorem C11_read_fault_dropped :
    (∀ r : Reader, DecodeConfig r = DecodeConfig (Reader.ofBytes r.data) ∧
      Decode r = Decode (Reader.ofBytes r.data)) ∧
    (∀ (data : List Byte) (code : Nat) (cfg : Config),
      DecodeConfig { data := data, stop := some (GoError.ioFault code) }
        ≠ Outcome.ret (cfg, some (GoError.ioFault code))) ∧
    (∀ (data : List Byte) (code : Nat) (o : Option RGBAImage),
      Decode { data := data, stop := some (GoError.ioFault code) }
        ≠ Outcome.ret (o, some (GoError.ioFault code))) ∧
    DecodeConfig { data := [0x65, 0x73, 0x69, 0x31, 0x00, 0x01, 0xA0, 0x00, 1, 2, 3],
                   stop := some (GoError.ioFault 7) }
      = Outcome.ret ({ ColorModel := some ColorModel.RGBAModel, Width := 1, Height := 1 }, none) ∧
    Decode { data := [0x65, 0x73, 0x69, 0x31, 0x00, 0x01, 0xA0, 0x00, 1, 2, 3],
             stop := some (GoError.ioFault 7) }
      = Outcome.ret (some { Pix := [1, 2, 3, 255], Stride := 4,
                            Rect := { Min := { X := 0, Y := 0 }, Max := { X := 1, Y := 1 } } },
          none) := by
  refine ⟨fun r => ⟨rfl, rfl⟩, ?_, ?_, by decide, by decide⟩
  · intro data code cfg h
    exact GoError.noConfusion (DecodeConfig_error _ cfg _ h)
  · intro data code o h
    exact GoError.noConfusion (Decode_error _ o _ h)

/-! ## Header bits the decoder does not look at -/

/-- Eight leading bytes and a tail, for a list of at least eight bytes. -/
theorem eight_cons (a : List Byte) (h8 : 8 ≤ a.length) :
    a = a.getD 0 0 :: a.getD 1 0 :: a.getD 2 0 :: a.getD 3 0 :: a.getD 4 0 :: a.getD 5 0 ::
      a.getD 6 0 :: a.getD 7 0 :: a.drop 8 := by
  rcases a with _ | ⟨a0, _ | ⟨a1, _ | ⟨a2, _ | ⟨a3, _ | ⟨a4, _ | ⟨a5, _ | ⟨a6, _ | ⟨a7, t⟩⟩⟩⟩⟩⟩⟩⟩ <;>
    simp at h8
  simp

/-- Bytes 6 and 7 of the input have no influence on `DecodeConfig` or
`Decode`. -/
theorem header_bytes_6_7_ignored (a0 a1 a2 a3 a4 a5 a6 a7 b6 b7 : Byte) (body : List Byte) :
    DecodeConfig (Reader.ofBytes (a0 :: a1 :: a2 :: a3 :: a4 :: a5 :: a6 :: a7 :: body))
      = DecodeConfig (Reader.ofBytes (a0 :: a1 :: a2 :: a3 :: a4 :: a5 :: b6 :: b7 :: body)) ∧
    Decode (Reader.ofBytes (a0 :: a1 :: a2 :: a3 :: a4 :: a5 :: a6 :: a7 :: body))
      = Decode (Reader.ofBytes (a0 :: a1 :: a2 :: a3 :: a4 :: a5 :: b6 :: b7 :: body)) := by
  by_cases hm : [a0, a1, a2, a3] = magicESI
  · have e1 : a0 :: a1 :: a2 :: a3 :: a4 :: a5 :: a6 :: a7 :: body
        = magicESI ++ (a4 :: a5 :: a6 :: a7 :: body) := by rw [← hm]; rfl
    have e2 : a0 :: a1 :: a2 :: a3 :: a4 :: a5 :: b6 :: b7 :: body
        = magicESI ++ (a4 :: a5 :: b6 :: b7 :: body) := by rw [← hm]; rfl
    rw [e1, e2]
    simp only [Reader.ofBytes]
    rw [DecodeConfig_shape, DecodeConfig_shape, Decode_shape, Decode_shape]
    exact ⟨rfl, rfl⟩
  · have h1 : (a0 :: a1 :: a2 :: a3 :: a4 :: a5 :: a6 :: a7 :: body).take 4 ≠ magicESI := hm
    have h2 : (a0 :: a1 :: a2 :: a3 :: a4 :: a5 :: b6 :: b7 :: body).take 4 ≠ magicESI := hm
    rw [DecodeConfig_bad_magic _ h1, DecodeConfig_bad_magic _ h2, Decode_bad_magic _ h1,
      Decode_bad_magic _ h2]
    exact ⟨rfl, rfl⟩

/-- C12: for every two inputs of equal length, at least 8 bytes, that agree at
every position other than 6 and 7 and whose bytes 6 agree in their high five
bits (so they differ at most in byte 7 and in the low 3 bits of byte 6),
`DecodeConfig` returns identical results and `Decode` returns identical
results. -/
theorem C12_ignored_header_bits (a b : List Byte) (hlen : a.length = b.length)
    (h8 : 8 ≤ a.length)
    (hsame : ∀ i : Nat, i ≠ 6 → i ≠ 7 → a[i]? = b[i]?)
    (_h6 : (a.getD 6 0).val / 8 = (b.getD 6 0).val / 8) :
    DecodeConfig (Reader.ofBytes a) = DecodeConfig (Reader.ofBytes b) ∧
    Decode (Reader.ofBytes a) = Decode (Reader.ofBytes b) := by
  have hg : ∀ i : Nat, i ≠ 6 → i ≠ 7 → a.getD i 0 = b.getD i 0 := by
    intro i h6 h7
    simp only [List.getD_eq_getElem?_getD, hsame i h6 h7]
  have ht : a.drop 8 = b.drop 8 := by
    apply List.ext_getElem?
    intro n
    rw [List.getElem?_drop, List.getElem?_drop]
    exact hsame (8 + n) (by omega) (by omega)
  rw [eight_cons a h8, eight_cons b (by omega)]
  rw [hg 0 (by omega) (by omega), hg 1 (by omega) (by omega), hg 2 (by omega) (by omega),
    hg 3 (by omega) (by omega), hg 4 (by omega) (by omega), hg 5 (by omega) (by omega), ht]
  exact header_bytes_6_7_ignored _ _ _ _ _ _ _ _ _ _ _

/-- C12 witness: two 11-byte inputs that differ in byte 7 (`00` against `FF`)
and in the low three bits of byte 6 (`A0` against `A7`). -/
theorem C12_ignored_header_bits_witness :
    DecodeConfig (Reader.ofBytes [0x65, 0x73, 0x69, 0x31, 0, 1, 0xA0, 0x00, 1, 2, 3])
      = DecodeConfig (Reader.ofBytes [0x65, 0x73, 0x69, 0x31, 0, 1, 0xA7, 0xFF, 1, 2, 3]) ∧
    Decode (Reader.ofBytes [0x65, 0x73, 0x69, 0x31, 0, 1, 0xA0, 0x00, 1, 2, 3])
      = Decode (Reader.ofBytes [0x65, 0x73, 0x69, 0x31, 0, 1, 0xA7, 0xFF, 1, 2, 3]) :=
  C12_ignored_header_bits
    [0x65, 0x73, 0x69, 0x31, 0, 1, 0xA0, 0x00, 1, 2, 3]
    [0x65, 0x73, 0x69, 0x31, 0, 1, 0xA7, 0xFF, 1, 2, 3]
    rfl (by decide)
    (by
      intro i h6 h7
      rcases i with _ | _ | _ | _ | _ | _ | _ | _ | _ | _ | _ | i
      all_goals first | rfl | omega)
    (by decide)

/-! ## The config byte and the pixel bytes `Encode` writes -/

/-- Byte 6 of what `Encode` writes is the config byte. -/
theorem written_config (img : Image) :
    (Encode Writer.reliable img).1.written[6]? = some (configByte img.ColorModel) := by
  rw [Encode_written]
  simp [magicESI]

/-- The config byte as a function of the colour model. -/
theorem configByte_values (cm : ColorModel) :
    configByte cm =
      if cm = ColorModel.GrayModel then 0x20
      else if cm = ColorModel.Gray16Model then 0x40
      else if cm = ColorModel.RGBA64Model then 0xC0
      else 0xA0 := by
  cases cm <;> first | rfl | (simp only [reduceCtorEq, if_false]; unfold configByte; dsimp only; rfl)

/-- Byte `c` of pixel `(x, y)` in what `Encode` writes for an image whose
bounds have the upper corner `(W, H)`. -/
theorem written_pixel (img : Image) (W H x y c : Nat)
    (hmax : img.Bounds.Max = { X := (W : Int), Y := (H : Int) })
    (hx : x < W) (hy : y < H) (hc : c < 3) :
    (Encode Writer.reliable img).1.written.getD (8 + (3 * (y * W + x) + c)) 0
      = (pixelTriple (img.At (x : Int) (y : Int))).getD c 0 := by
  rw [Encode_written, hmax, ← getD_encodedBody img W H x y c hx hy hc]
  have hpre : ∀ (t : List Byte) (a4 a5 a6 a7 : Byte) (k : Nat),
      (magicESI ++ (a4 :: a5 :: a6 :: a7 :: t)).getD (8 + k) 0 = t.getD k 0 := by
    intro t a4 a5 a6 a7 k
    have e : magicESI ++ (a4 :: a5 :: a6 :: a7 :: t)
        = (magicESI ++ [a4, a5, a6, a7]) ++ t := by simp
    rw [e, List.getD_append_right _ _ _ _ (by simp [magicESI])]
    simp [magicESI]
  exact hpre _ _ _ _ _ _

/-- C13: for every image the config byte `Encode` writes (byte 6 of the
output) is `configByte` of the image's colour model; for every colour model
bit 7 (value 128) of that byte is set exactly when the model is not `Gray` or
`Gray16`, bit 6 (value 64) exactly when it is `RGBA64` or `Gray16`, bit 5
(value 32) exactly when bit 6 is not set, and bits 4..0 are zero; so the byte
is `0x20` for `Gray`, `0x40` for `Gray16`, `0xC0` for `RGBA64` and `0xA0`
(binary `10100000`) for `RGBA` and every other model. -/
theorem C13_config_byte_selection :
    (∀ img : Image,
      (Encode Writer.reliable img).1.written[6]? = some (configByte img.ColorModel)) ∧
    (∀ cm : ColorModel,
      ((configByte cm).val / 128 % 2 = 1 ↔
        (cm ≠ ColorModel.GrayModel ∧ cm ≠ ColorModel.Gray16Model)) ∧
      ((configByte cm).val / 64 % 2 = 1 ↔
        (cm = ColorModel.RGBA64Model ∨ cm = ColorModel.Gray16Model)) ∧
      ((configByte cm).val / 32 % 2 = 1 ↔ ¬ ((configByte cm).val / 64 % 2 = 1)) ∧
      (configByte cm).val % 32 = 0) ∧
    configByte ColorModel.GrayModel = 0x20 ∧
    configByte ColorModel.Gray16Model = 0x40 ∧
    configByte ColorModel.RGBA64Model = 0xC0 ∧
    configByte ColorModel.RGBAModel = 0xA0 ∧
    (∀ cm : ColorModel, cm ≠ ColorModel.GrayModel → cm ≠ ColorModel.Gray16Model →
      cm ≠ ColorModel.RGBA64Model → configByte cm = 0xA0) ∧
    (0xA0 : Byte) = 0b10100000 := by
  refine ⟨written_config, ?_, rfl, rfl, rfl, rfl, ?_, rfl⟩
  · intro cm
    rw [configByte_values]
    cases cm with
    | otherModel tag =>
      simp only [reduceCtorEq, if_false]
      refine ⟨⟨fun _ => ⟨fun h => ColorModel.noConfusion h, fun h => ColorModel.noConfusion h⟩,
          fun _ => by decide⟩,
        ⟨fun h => absurd h (by decide), fun h => h.elim False.elim False.elim⟩,
        by decide, by decide⟩
    | _ =>
      simp only [reduceCtorEq, if_false, if_true]
      decide
  · intro cm h1 h2 h3
    rw [configByte_values, if_neg h1, if_neg h2, if_neg h3]

/-- C13 witness: `NRGBAModel`, a model other than `Gray`, `Gray16` and
`RGBA64`, gets the config byte `0xA0`. -/
theorem C13_config_byte_selection_witness :
    configByte ColorModel.NRGBAModel = 0xA0 :=
  C13_config_byte_selection.2.2.2.2.2.2.1 ColorModel.NRGBAModel
    (by decide) (by decide) (by decide)

/-- C14: the byte `Encode` writes for a channel of value `v` is `byte (v / 257)`
(bytes `8 + 3*(y*W+x) + c`, `c = 0, 1, 2`, of the output are this byte for the
red, green and blue value of pixel `(x, y)`); for every 16-bit `v` it equals
`floor(v / 257)` and is at most 255, so the conversion to a byte does not wrap;
it is monotone non-decreasing in `v`, is 0 at 0 and 255 at 65535, and for every
8-bit sample `c` the channel value `257 * c` is written back as `c`. -/
theorem C14_quantisation :
    (∀ (img : Image) (W H x y : Nat),
      img.Bounds.Max = { X := (W : Int), Y := (H : Int) } → x < W → y < H →
      (Encode Writer.reliable img).1.written.getD (8 + (3 * (y * W + x) + 0)) 0
        = byte ((img.At (x : Int) (y : Int)).r / 257) ∧
      (Encode Writer.reliable img).1.written.getD (8 + (3 * (y * W + x) + 1)) 0
        = byte ((img.At (x : Int) (y : Int)).g / 257) ∧
      (Encode Writer.reliable img).1.written.getD (8 + (3 * (y * W + x) + 2)) 0
        = byte ((img.At (x : Int) (y : Int)).b / 257)) ∧
    (∀ v : Nat, v ≤ 65535 → (byte (v / 257)).val = v / 257 ∧ (byte (v / 257)).val ≤ 255) ∧
    (∀ v w : Nat, v ≤ w → w ≤ 65535 → (byte (v / 257)).val ≤ (byte (w / 257)).val) ∧
    byte (0 / 257) = 0 ∧
    byte (65535 / 257) = 255 ∧
    (∀ c : Nat, c ≤ 255 → (byte (257 * c / 257)).val = c) := by
  refine ⟨?_, ?_, ?_, by decide, by decide, ?_⟩
  · intro img W H x y hmax hx hy
    have h0 := written_pixel img W H x y 0 hmax hx hy (by omega)
    have h1 := written_pixel img W H x y 1 hmax hx hy (by omega)
    have h2 := written_pixel img W H x y 2 hmax hx hy (by omega)
    rw [h0, h1, h2]
    simp [pixelTriple]
  · intro v hv
    have h := val_byte_channel v hv
    rw [h]
    exact ⟨rfl, by omega⟩
  · intro v w hvw hw
    rw [val_byte_channel v (by omega), val_byte_channel w hw]
    exact Nat.div_le_div_right hvw
  · intro c hc
    rw [val_byte_channel (257 * c) (by omega)]
    omega

/-- C14 witness: the channel value `40000` is written as `155 = 40000 / 257`,
and the red byte of pixel `(1, 0)` of a 2 by 1 image of that value is this
byte. -/
theorem C14_quantisation_witness :
    ((byte (40000 / 257)).val = 40000 / 257 ∧ (byte (40000 / 257)).val ≤ 255) ∧
    (Encode Writer.reliable (Image.uniform ColorModel.RGBA64Model
      { Min := { X := 0, Y := 0 }, Max := { X := 2, Y := 1 } }
      { r := 40000, g := 0, b := 65535, a := 65535 })).1.written.getD
        (8 + (3 * (0 * 2 + 1) + 0)) 0 = byte (40000 / 257) :=
  ⟨C14_quantisation.2.1 40000 (by decide),
   (C14_quantisation.1 (Image.uniform ColorModel.RGBA64Model
      { Min := { X := 0, Y := 0 }, Max := { X := 2, Y := 1 } }
      { r := 40000, g := 0, b := 65535, a := 65535 }) 2 1 1 0 rfl (by decide) (by decide)).1⟩

/-- C15 (what the code does): on the sample header of the format
documentation, the bytes `01100101 01110011 01101001 00110001 00000000
00010000 10100000 00000000`, followed by any body, `DecodeConfig` returns no
error and the width `16`, the big-endian value of `00000000 00010000`; it does
not report the width of 32 that the documentation gives for this header. -/
theorem C15_sample_header_width_16 (body : List Byte) :
    ∃ cfg : Config,
      DecodeConfig (Reader.ofBytes ([0b01100101, 0b01110011, 0b01101001, 0b00110001,
          0b00000000, 0b00010000, 0b10100000, 0b00000000] ++ body))
        = Outcome.ret (cfg, none) ∧
      cfg.Width = 16 ∧ cfg.Width ≠ 32 := by
  have h := DecodeConfig_shape 0b00000000 0b00010000 0b10100000 0b00000000 body none
  have hw : bigEndianUint16 0b00000000 0b00010000 = 16 := by decide
  rw [hw] at h
  simp only [Nat.reduceEqDiff, if_false] at h
  refine ⟨_, h, rfl, ?_⟩
  show ((16 : Nat) : Int) ≠ 32
  decide

/-- C16: for every image with bounds `(0,0)-(W,H)`, `1 ≤ W ≤ 65535`, `H ≥ 0`,
whose colour values are 16-bit, and a writer that never fails, `Encode` returns
no error, the decoder's height `floor(3*W*H / 3 / W)` is `H`, and `Decode` of
the bytes written returns no error and an 8-bit RGBA image with bounds
`(0,0)-(W,H)` whose pixel at every `(x, y)` is `(r/257, g/257, b/257, 255)`,
`(r, g, b, _)` being the source value at `(x, y)`. -/
theorem C16_exact_roundtrip (img : Image) (W H : Nat)
    (hb : img.Bounds = { Min := { X := 0, Y := 0 }, Max := { X := (W : Int), Y := (H : Int) } })
    (hW1 : 1 ≤ W) (hW2 : W ≤ 65535)
    (h16 : ∀ x y : Int, (img.At x y).r ≤ 65535 ∧ (img.At x y).g ≤ 65535 ∧
      (img.At x y).b ≤ 65535) :
    (Encode Writer.reliable img).2 = none ∧
    3 * W * H / 3 / W = H ∧
    ∃ out : RGBAImage,
      Decode (Reader.ofBytes (Encode Writer.reliable img).1.written)
        = Outcome.ret (some out, none) ∧
      out.Rect = { Min := { X := 0, Y := 0 }, Max := { X := (W : Int), Y := (H : Int) } } ∧
      ∀ x y : Nat, x < W → y < H →
        out.RGBAAt (x : Int) (y : Int)
          = { R := byte ((img.At (x : Int) (y : Int)).r / 257),
              G := byte ((img.At (x : Int) (y : Int)).g / 257),
              B := byte ((img.At (x : Int) (y : Int)).b / 257), A := 255 } ∧
        (byte ((img.At (x : Int) (y : Int)).r / 257)).val = (img.At (x : Int) (y : Int)).r / 257 ∧
        (byte ((img.At (x : Int) (y : Int)).g / 257)).val = (img.At (x : Int) (y : Int)).g / 257 ∧
        (byte ((img.At (x : Int) (y : Int)).b / 257)).val = (img.At (x : Int) (y : Int)).b / 257 := by
  have hdiv : 3 * W * H / 3 / W = H := by
    rw [Nat.mul_assoc, Nat.mul_div_cancel_left _ (by omega),
      Nat.mul_div_cancel_left _ (by omega)]
  refine ⟨Encode_error img, hdiv, _, Decode_Encode img W H hb hW1 hW2, rfl, ?_⟩
  intro x y hx hy
  obtain ⟨hr, hg, hbl⟩ := h16 (x : Int) (y : Int)
  exact ⟨RGBAAt_Decode_Encode img W H x y hx hy, val_byte_channel _ hr, val_byte_channel _ hg,
    val_byte_channel _ hbl⟩

/-- C16 witness: a 3 by 2 `RGBA64` image of value `(65535, 300, 0, 65535)`. -/
theorem C16_exact_roundtrip_witness :
    (Encode Writer.reliable (Image.uniform ColorModel.RGBA64Model
      { Min := { X := 0, Y := 0 }, Max := { X := 3, Y := 2 } }
      { r := 65535, g := 300, b := 0, a := 65535 })).2 = none ∧
    3 * 3 * 2 / 3 / 3 = 2 ∧
    ∃ out : RGBAImage,
      Decode (Reader.ofBytes (Encode Writer.reliable (Image.uniform ColorModel.RGBA64Model
        { Min := { X := 0, Y := 0 }, Max := { X := 3, Y := 2 } }
        { r := 65535, g := 300, b := 0, a := 65535 })).1.written)
        = Outcome.ret (some out, none) ∧
      out.Rect = { Min := { X := 0, Y := 0 }, Max := { X := ((3 : Nat) : Int), Y := ((2 : Nat) : Int) } } ∧
      ∀ x y : Nat, x < 3 → y < 2 →
        out.RGBAAt (x : Int) (y : Int)
          = { R := byte (65535 / 257), G := byte (300 / 257), B := byte (0 / 257), A := 255 } ∧
        (byte (65535 / 257)).val = 65535 / 257 ∧
        (byte (300 / 257)).val = 300 / 257 ∧
        (byte (0 / 257)).val = 0 / 257 :=
  C16_exact_roundtrip
    (Image.uniform ColorModel.RGBA64Model
      { Min := { X := 0, Y := 0 }, Max := { X := 3, Y := 2 } }
      { r := 65535, g := 300, b := 0, a := 65535 })
    3 2 rfl (by decide) (by decide) (fun _ _ => by simp [Image.uniform])

/-- C17: for every input that starts with `"esi1"` and has total length 4, 5 or
6, `DecodeConfig` and `Decode` end in the out-of-range index of `header[2]`,
returning neither a config or image nor an error value; and for every input
that starts with `"esi1"` and has length 7 or more, neither ends in that
fault. -/
theorem C17_short_header_fault :
    (∀ input : List Byte, input.take 4 = magicESI →
      (input.length = 4 ∨ input.length = 5 ∨ input.length = 6) →
      DecodeConfig (Reader.ofBytes input) = Outcome.fault RuntimeFault.indexOutOfRange ∧
      Decode (Reader.ofBytes input) = Outcome.fault RuntimeFault.indexOutOfRange ∧
      (∀ res, DecodeConfig (Reader.ofBytes input) ≠ Outcome.ret res) ∧
      (∀ res, Decode (Reader.ofBytes input) ≠ Outcome.ret res)) ∧
    (∀ input : List Byte, input.take 4 = magicESI → 7 ≤ input.length →
      DecodeConfig (Reader.ofBytes input) ≠ Outcome.fault RuntimeFault.indexOutOfRange ∧
      Decode (Reader.ofBytes input) ≠ Outcome.fault RuntimeFault.indexOutOfRange) := by
  constructor
  · intro input hm hlen
    have hsplit : input = magicESI ++ input.drop 4 := by
      conv_lhs => rw [← List.take_append_drop 4 input, hm]
    have hshort : (input.drop 4).length < 3 := by
      rw [List.length_drop]; omega
    have h1 := DecodeConfig_magic_short (input.drop 4) none hshort
    have h2 := Decode_magic_short (input.drop 4) none hshort
    rw [← hsplit] at h1 h2
    refine ⟨h1, h2, ?_, ?_⟩
    · intro res h
      rw [Reader.ofBytes, h1] at h
      exact Outcome.noConfusion h
    · intro res h
      rw [Reader.ofBytes, h2] at h
      exact Outcome.noConfusion h
  · intro input hm hlen
    by_cases h8 : 8 ≤ input.length
    · rw [DecodeConfig_input input h8 hm, Decode_input input h8 hm]
      by_cases hw : bigEndianUint16 (input.getD 4 0) (input.getD 5 0) = 0
      · rw [if_pos hw, if_pos hw]
        exact ⟨by decide, by decide⟩
      · rw [if_neg hw, if_neg hw]
        exact ⟨fun h => Outcome.noConfusion h, fun h => Outcome.noConfusion h⟩
    · have hsplit : input = magicESI ++ input.drop 4 := by
        conv_lhs => rw [← List.take_append_drop 4 input, hm]
      have hl3 : (input.drop 4).length = 3 := by
        rw [List.length_drop]; omega
      rcases hL : input.drop 4 with _ | ⟨a, _ | ⟨b, _ | ⟨c, _ | ⟨d, t⟩⟩⟩⟩ <;>
        rw [hL] at hl3 <;> simp only [List.length_cons, List.length_nil] at hl3 <;>
        try omega
      rw [hsplit, hL, Reader.ofBytes, DecodeConfig_magic_three a b c none,
        Decode_magic_three a b c none]
      by_cases hw : bigEndianUint16 a b = 0
      · rw [if_pos hw, if_pos hw]
        exact ⟨by decide, by decide⟩
      · rw [if_neg hw, if_neg hw]
        exact ⟨fun h => Outcome.noConfusion h, fun h => Outcome.noConfusion h⟩

/-- C17 witness: the six bytes `65 73 69 31 00 01` fault, the seven bytes
`65 73 69 31 00 01 A0` do not. -/
theorem C17_short_header_fault_witness :
    (DecodeConfig (Reader.ofBytes [0x65, 0x73, 0x69, 0x31, 0, 1])
        = Outcome.fault RuntimeFault.indexOutOfRange ∧
      Decode (Reader.ofBytes [0x65, 0x73, 0x69, 0x31, 0, 1])
        = Outcome.fault RuntimeFault.indexOutOfRange ∧
      (∀ res, DecodeConfig (Reader.ofBytes [0x65, 0x73, 0x69, 0x31, 0, 1]) ≠ Outcome.ret res) ∧
      (∀ res, Decode (Reader.ofBytes [0x65, 0x73, 0x69, 0x31, 0, 1]) ≠ Outcome.ret res)) ∧
    (DecodeConfig (Reader.ofBytes [0x65, 0x73, 0x69, 0x31, 0, 1, 0xA0])
        ≠ Outcome.fault RuntimeFault.indexOutOfRange ∧
      Decode (Reader.ofBytes [0x65, 0x73, 0x69, 0x31, 0, 1, 0xA0])
        ≠ Outcome.fault RuntimeFault.indexOutOfRange) :=
  ⟨C17_short_header_fault.1 [0x65, 0x73, 0x69, 0x31, 0, 1] (by decide) (by decide),
   C17_short_header_fault.2 [0x65, 0x73, 0x69, 0x31, 0, 1, 0xA0] (by decide) (by decide)⟩

/-! ## The lower corner of the bounds -/

/-- The inner loop of `Encode` looks at an image only through `At`. -/
theorem encodeRow_congr (img img2 : Image) (hAt : img.At = img2.At) (y : Int) :
    ∀ (xs : List Int) (w : Writer), encodeRow img y xs w = encodeRow img2 y xs w := by
  intro xs
  induction xs with
  | nil => intro w; rfl
  | cons x xs ih =>
    intro w
    simp only [encodeRow, hAt, ih]

/-- The outer loop of `Encode` looks at an image only through `At`. -/
theorem encodeRows_congr (img img2 : Image) (hAt : img.At = img2.At) (cols : List Int) :
    ∀ (ys : List Int) (w : Writer), encodeRows img cols ys w = encodeRows img2 cols ys w := by
  intro ys
  induction ys with
  | nil => intro w; rfl
  | cons y ys ih =>
    intro w
    simp only [encodeRows, encodeRow_congr img img2 hAt, ih]

/-- Replacing the lower corner of the bounds changes nothing in what `Encode`
does, on any writer. -/
theorem Encode_Min_irrelevant (w : Writer) (img : Image) (m : Point) :
    Encode w { img with Bounds := { Min := m, Max := img.Bounds.Max } } = Encode w img := by
  have h : encodeRows { img with Bounds := { Min := m, Max := img.Bounds.Max } }
      = encodeRows img := by
    funext cols ys w1
    exact encodeRows_congr { img with Bounds := { Min := m, Max := img.Bounds.Max } } img rfl
      cols ys w1
  simp only [Encode, h]

/-- C18: for every image whose bounds have the upper corner `(W, H)` with
`W ≥ 0` and `H ≥ 0`, and a writer that never fails, `Encode` returns no error,
writes `W mod 65536` as the big-endian width, and after the header writes
exactly `W * H` pixel triples, the triple number `y * W + x` being that of
`img.At(x, y)` for `y = 0..H-1`, `x = 0..W-1`, points outside the image's bounds
included; the lower corner has no influence on the output, and a 1 by 1 image
with bounds `(1,1)-(2,2)` is written with width 2 and four triples, three of
them from points outside its bounds. -/
theorem C18_lower_corner_ignored :
    (∀ (img : Image) (W H : Nat), img.Bounds.Max = { X := (W : Int), Y := (H : Int) } →
      (Encode Writer.reliable img).2 = none ∧
      (∃ hi lo : Byte,
        (Encode Writer.reliable img).1.written.take 8
          = [0x65, 0x73, 0x69, 0x31, hi, lo, configByte img.ColorModel, 0] ∧
        256 * hi.val + lo.val = W % 65536) ∧
      ((Encode Writer.reliable img).1.written.drop 8).length = 3 * (W * H) ∧
      ∀ x y c : Nat, x < W → y < H → c < 3 →
        (Encode Writer.reliable img).1.written.getD (8 + (3 * (y * W + x) + c)) 0
          = (pixelTriple (img.At (x : Int) (y : Int))).getD c 0) ∧
    (∀ (img : Image) (m : Point),
      Encode Writer.reliable { img with Bounds := { Min := m, Max := img.Bounds.Max } }
        = Encode Writer.reliable img) ∧
    (Encode Writer.reliable (Image.solid ColorModel.RGBAModel
        { Min := { X := 1, Y := 1 }, Max := { X := 2, Y := 2 } }
        { r := 65535, g := 65535, b := 65535, a := 65535 })).1.written
      = [0x65, 0x73, 0x69, 0x31, 0, 2, 0xA0, 0,
         0, 0, 0, 0, 0, 0, 0, 0, 0, 255, 255, 255] := by
  refine ⟨?_, fun img m => Encode_Min_irrelevant _ img m, by decide⟩
  intro img W H hmax
  refine ⟨Encode_error img, ⟨byte (uint16 img.Bounds.Max.X / 256),
    byte (uint16 img.Bounds.Max.X), ?_, ?_⟩, ?_, ?_⟩
  · rw [Encode_written]
    simp [magicESI]
  · rw [hmax]
    simp only [byte, uint16]
    omega
  · have hd : (Encode Writer.reliable img).1.written.drop 8
        = bodyBytes img (loopRange 0 img.Bounds.Max.X) (loopRange 0 img.Bounds.Max.Y) := by
      rw [Encode_written]
      simp [magicESI]
    rw [hd, length_bodyBytes, length_loopRange, length_loopRange, hmax, Int.sub_zero,
      Int.sub_zero, Int.toNat_natCast, Int.toNat_natCast, Nat.mul_assoc]
  · intro x y c hx hy hc
    exact written_pixel img W H x y c hmax hx hy hc

/-- C18 witness: the image with bounds `(1,1)-(2,2)`; byte 0 of the triple of
point `(0, 0)`, which lies outside the bounds, is that of the image's value
there. -/
theorem C18_lower_corner_ignored_witness :
    (Encode Writer.reliable (Image.solid ColorModel.RGBAModel
        { Min := { X := 1, Y := 1 }, Max := { X := 2, Y := 2 } }
        { r := 65535, g := 65535, b := 65535, a := 65535 })).1.written.getD
        (8 + (3 * (0 * 2 + 0) + 0)) 0
      = (pixelTriple ((Image.solid ColorModel.RGBAModel
          { Min := { X := 1, Y := 1 }, Max := { X := 2, Y := 2 } }
          { r := 65535, g := 65535, b := 65535, a := 65535 }).At ((0 : Nat) : Int)
            ((0 : Nat) : Int))).getD 0 0 :=
  (C18_lower_corner_ignored.1 (Image.solid ColorModel.RGBAModel
      { Min := { X := 1, Y := 1 }, Max := { X := 2, Y := 2 } }
      { r := 65535, g := 65535, b := 65535, a := 65535 }) 2 2 rfl).2.2.2 0 0 0
    (by decide) (by decide) (by decide)

end ESI
